import Mathlib

/-!
# HttpRequest

A shallow embedding of `code/http/httprequest.cpp` (the incremental HTTP request
decoder of the server) and theorems about it.

Conventions of the embedding:

* a `std::string` is the list of its bytes (`Str`); a byte is a `Char` below 256;
* an `unordered_map<string, string>` is an association list with unique keys (`Dict`);
  the iteration order of the C++ container is unspecified, so statements about a map's
  contents are made through `dictFind`;
* `string::npos` is `none`: `find` returns `Option Nat`;
* the readable window `[Peek(), BeginWrite())` of the external `Buffer` is a `Str`;
  `RetrieveUntil` drops a prefix of it;
* the two `std::regex` patterns are run by a small backtracking matcher (`matchAtoms`)
  for the fragment of ECMAScript syntax they use; the matcher of the C++ library recurses
  once for every character it takes, so `regex_match` overflows the call stack on a line
  longer than the bound `regexLimit` of the outside world;
* the external collaborators (MySQL, the clock, the file system) are oracles in `Env`;
  what the request decoder asks of them is recorded in a `Trace`;
* an access past the end of a string, a failed `assert`, an overflow of the call stack
  in `std::regex_match` and an exhausted fuel counter are the four `Fault`s.
-/

namespace HttpRequest

/-- A `std::string`, as the list of its bytes. -/
abbrev Str := List Char

/-- An `unordered_map<string, string>`, as an association list with unique keys. -/
abbrev Dict := List (Str × Str)

/-- The member `find(key)` of a map: the mapped value, `none` for `end()`. -/
def dictFind : Dict → Str → Option Str
  | [], _ => none
  | (k, v) :: rest, key => if k = key then some v else dictFind rest key

/-- The member `count(key)` of a map: 1 when the key is present, 0 otherwise. -/
def dictCount (d : Dict) (key : Str) : Nat :=
  match dictFind d key with
  | some _ => 1
  | none => 0

/-- The assignment `m[key] = value`: overwrite the entry of `key`, or add one. -/
def dictSet : Dict → Str → Str → Dict
  | [], key, value => [(key, value)]
  | (k, v) :: rest, key, value =>
    if k = key then (k, value) :: rest else (k, v) :: dictSet rest key value

/-- The read `m[key]`: it adds an entry with the empty string when `key` is absent. -/
def dictTouch (d : Dict) (key : Str) : Dict :=
  match dictFind d key with
  | some _ => d
  | none => dictSet d key []

/-- The states of the decoder, `enum PARSE_STATE`. -/
inductive PARSE_STATE
  | REQUEST_LINE
  | HEADERS
  | BODY
  | FINISH
deriving DecidableEq, Repr

/-- The data members of `HttpRequest`. -/
structure Request where
  method_ : Str
  path_ : Str
  version_ : Str
  body_ : Str
  state_ : PARSE_STATE
  header_ : Dict
  post_ : Dict
deriving DecidableEq, Repr

/-- What can go wrong outside the C++ abstract machine's defined behaviour. -/
inductive Fault
  | outOfRange
  | assertion
  | stackOverflow
  | fuel
deriving DecidableEq, Repr

/-- The result of a computation that may fault. -/
inductive Res (α : Type)
  | ok (a : α)
  | fault (f : Fault)
deriving DecidableEq, Repr

/-- The function `Init`: every member is cleared and the state is `REQUEST_LINE`. -/
def Init : Request :=
  { method_ := [], path_ := [], version_ := [], body_ := [],
    state_ := .REQUEST_LINE, header_ := [], post_ := [] }

/-! ## String search -/

/-- The first position, counted from `idx`, at which `pat` occurs in the text. -/
def findAux (pat : Str) : Str → Nat → Option Nat
  | [], idx => if pat.isPrefixOf [] then some idx else none
  | c :: t, idx => if pat.isPrefixOf (c :: t) then some idx else findAux pat t (idx + 1)

/-- The member `s.find(pat, pos)` of `std::string`; `none` is `npos`. -/
def find (s pat : Str) (pos : Nat) : Option Nat :=
  if pos ≤ s.length then findAux pat (s.drop pos) pos else none

/-- The last position, counted from `idx`, at which `pat` occurs in the text. -/
def rfindAux (pat : Str) : Str → Nat → Option Nat
  | [], idx => if pat.isPrefixOf [] then some idx else none
  | c :: t, idx =>
    match rfindAux pat t (idx + 1) with
    | some k => some k
    | none => if pat.isPrefixOf (c :: t) then some idx else none

/-- The member `s.rfind(pat)` of `std::string`; `none` is `npos`. -/
def rfind (s pat : Str) : Option Nat := rfindAux pat s 0

/-- The member `s.substr(pos, len)` for `pos ≤ s.size()`. -/
def substr (s : Str) (pos len : Nat) : Str := (s.drop pos).take len

/-- The call `s.substr(pos, e - pos)` where `e` is a result of `find` from `pos` on: when
`e` is `npos` the unsigned difference is at least the rest of the string, which is
then taken whole. -/
def substrTo (s : Str) (pos : Nat) (e : Option Nat) : Str :=
  match e with
  | some e => substr s pos (e - pos)
  | none => s.drop pos

/-- The line terminator. -/
def CRLF : Str := ['\r', '\n']

/-- The call `std::search(first, last, CRLF, CRLF + 2)` on the readable window, as an
offset from `first`: the offset of the first terminator, or of `last` when there is
none. -/
def search (buff : Str) : Nat := (findAux CRLF buff 0).getD buff.length

/-! ## Regular expressions -/

/-- The pieces the two patterns are made of. -/
inductive Atom
  | lit (c : Char)
  | opt (c : Char)
  | group (cls : Char → Bool)

/-- A greedy starred class inside a capture group: the longest run is tried first,
then every shorter one, each followed by the rest `k` of the pattern. -/
def backtrack (k : Str → Option (List Str)) (s : Str) : Nat → Option (List Str)
  | 0 => (k s).map (fun caps => [] :: caps)
  | n + 1 =>
    match k (s.drop (n + 1)) with
    | some caps => some (s.take (n + 1) :: caps)
    | none => backtrack k s n

/-- The match of a whole line against a pattern: the capture groups `subMatch[1]`,
`subMatch[2]`, ... of the first match in the order of ECMAScript, `none` when the line
does not match. -/
def matchAtoms : List Atom → Str → Option (List Str)
  | [], s => if s = [] then some [] else none
  | .lit c :: rest, s =>
    match s with
    | x :: t => if x = c then matchAtoms rest t else none
    | [] => none
  | .opt c :: rest, s =>
    match (match s with
      | x :: t => if x = c then matchAtoms rest t else none
      | [] => none) with
    | some caps => some caps
    | none => matchAtoms rest s
  | .group cls :: rest, s => backtrack (matchAtoms rest) s (s.takeWhile cls).length

/-- The call `regex_match(line, subMatch, patten)` of the C++ library. Its matcher
recurses once for every character it takes and has no bound of its own: on a line
longer than `stack`, the number of characters the call stack has room for, the process
dies of a stack overflow, whether the line matches or not; this is taken for every such
line. A shorter line is matched. -/
def regex_match (stack : Nat) (patten : List Atom) (line : Str) : Res (Option (List Str)) :=
  if stack < line.length then .fault .stackOverflow else .ok (matchAtoms patten line)

/-- The capture group `subMatch[n]` for `n ≥ 1`. -/
def subMatch (caps : List Str) (n : Nat) : Str := caps.getD (n - 1) []

/-- The pattern `^([^ ]*) ([^ ]*) HTTP/([^ ]*)$` of `ParseRequestLine_`. -/
def requestLinePatten : List Atom :=
  [.group (fun c => c != ' '), .lit ' ', .group (fun c => c != ' '), .lit ' ',
   .lit 'H', .lit 'T', .lit 'T', .lit 'P', .lit '/', .group (fun c => c != ' ')]

/-- The pattern `^([^:]*): ?(.*)$` of `ParseHeader_`; the dot of ECMAScript matches
every character but the line terminators `\n` and `\r`. -/
def headerPatten : List Atom :=
  [.group (fun c => c != ':'), .lit ':', .opt ' ',
   .group (fun c => c != '\n' && c != '\r')]

/-! ## The line parsers -/

/-- The set `DEFAULT_HTML`. -/
def DEFAULT_HTML : List Str :=
  ["/index".toList, "/register".toList, "/login".toList,
   "/welcome".toList, "/video".toList, "/picture".toList]

/-- The map `DEFAULT_HTML_TAG`. -/
def DEFAULT_HTML_TAG : List (Str × Int) :=
  [("/register.html".toList, 0), ("/login.html".toList, 1)]

/-- The `for` loop of `ParsePath_` over the items of `DEFAULT_HTML`, with its `break`. -/
def ParsePath_.loop (path : Str) : List Str → Str
  | [] => path
  | item :: rest => if item = path then path ++ ".html".toList else ParsePath_.loop path rest

/-- The function `ParsePath_`. -/
def ParsePath_ (r : Request) : Request :=
  if r.path_ = "/".toList then { r with path_ := "/index.html".toList }
  else { r with path_ := ParsePath_.loop r.path_ DEFAULT_HTML }

/-- The function `ParseRequestLine_`: the returned flag and the request afterwards;
`stack` is the room of the call stack, see `regex_match`. -/
def ParseRequestLine_ (stack : Nat) (r : Request) (line : Str) : Res (Bool × Request) :=
  match regex_match stack requestLinePatten line with
  | .fault f => .fault f
  | .ok (some caps) =>
    .ok (true, { r with method_ := subMatch caps 1, path_ := subMatch caps 2,
                        version_ := subMatch caps 3, state_ := .HEADERS })
  | .ok none => .ok (false, r)

/-- The function `ParseHeader_`; `stack` is the room of the call stack, see
`regex_match`. -/
def ParseHeader_ (stack : Nat) (r : Request) (line : Str) : Res Request :=
  match regex_match stack headerPatten line with
  | .fault f => .fault f
  | .ok (some caps) =>
    .ok { r with header_ := dictSet r.header_ (subMatch caps 1) (subMatch caps 2) }
  | .ok none => .ok { r with state_ := .BODY }

/-- The function `IsKeepAlive`. -/
def IsKeepAlive (r : Request) : Bool :=
  if dictCount r.header_ "Connection".toList = 1 then
    dictFind r.header_ "Connection".toList = some "keep-alive".toList
      && r.version_ = "1.1".toList
  else false

/-! ## Form decoding -/

/-- The value of a `char` converted to `int`; `char` is a signed byte, as on the x86-64
Linux target of the server. -/
def charVal (c : Char) : Int :=
  if c.toNat % 256 < 128 then (c.toNat % 256 : Nat) else (c.toNat % 256 : Nat) - 256

/-- The conversion of an `int` to `char` on assignment: the byte congruent to it. -/
def toChar (x : Int) : Char := Char.ofNat (x % 256).toNat

/-- The function `ConverHex`. -/
def ConverHex (ch : Char) : Int :=
  if charVal ch ≥ charVal 'A' ∧ charVal ch ≤ charVal 'F' then charVal ch - charVal 'A' + 10
  else if charVal ch ≥ charVal 'a' ∧ charVal ch ≤ charVal 'f' then
    charVal ch - charVal 'a' + 10
  else charVal ch

/-- The locals of `ParseFromUrlencoded_`, with the two members it writes. The `int`s
`i`, `j` and `n` stay far below `2^31` for any body the server can hold. -/
structure FormScan where
  body_ : Str
  post_ : Dict
  key : Str
  value : Str
  num : Int
  i : Nat
  j : Nat
deriving DecidableEq, Repr

/-- The `switch` in the loop of `ParseFromUrlencoded_`, at `ch = body_[i]`. The `%`
case reads and writes `body_[i + 1]` and `body_[i + 2]`: that is defined only when
both lie inside the string. -/
def ParseFromUrlencoded_.switch (n : Nat) (st : FormScan) : Res FormScan :=
  let i := st.i
  let ch := st.body_.getD i '\x00'
  if ch = '=' then
    .ok { st with key := substr st.body_ st.j (i - st.j), j := i + 1 }
  else if ch = '+' then
    .ok { st with body_ := st.body_.set i ' ' }
  else if ch = '%' then
    if i + 2 < n then
      let num := ConverHex (st.body_.getD (i + 1) '\x00') * 16
                  + ConverHex (st.body_.getD (i + 2) '\x00')
      let b1 := st.body_.set (i + 2) (toChar (num.tmod 10 + charVal '0'))
      let b2 := b1.set (i + 1) (toChar (num.tdiv 10 + charVal '0'))
      .ok { st with num := num, body_ := b2, i := i + 2 }
    else .fault .outOfRange
  else if ch = '&' then
    let value := substr st.body_ st.j (i - st.j)
    .ok { st with value := value, j := i + 1, post_ := dictSet st.post_ st.key value }
  else .ok st

/-- The loop `for(; i < n; i++)` of `ParseFromUrlencoded_`. -/
def ParseFromUrlencoded_.loop (n : Nat) : Nat → FormScan → Res FormScan
  | 0, st => if st.i < n then .fault .fuel else .ok st
  | fuel + 1, st =>
    if st.i < n then
      match ParseFromUrlencoded_.switch n st with
      | .ok s => ParseFromUrlencoded_.loop n fuel { s with i := s.i + 1 }
      | .fault f => .fault f
    else .ok st

/-- The function `ParseFromUrlencoded_`. -/
def ParseFromUrlencoded_ (r : Request) : Res Request :=
  if r.body_.length = 0 then .ok r
  else
    let n := r.body_.length
    match ParseFromUrlencoded_.loop n n
        { body_ := r.body_, post_ := r.post_, key := [], value := [], num := 0, i := 0, j := 0 } with
    | .fault f => .fault f
    | .ok st =>
      if st.j ≤ st.i then
        if dictCount st.post_ st.key = 0 ∧ st.j < st.i then
          .ok { r with body_ := st.body_,
                       post_ := dictSet st.post_ st.key (substr st.body_ st.j (st.i - st.j)) }
        else .ok { r with body_ := st.body_, post_ := st.post_ }
      else .fault .assertion

/-! ## The collaborators -/

/-- The outside world, as the decoder sees it: `mysql_query` followed by
`mysql_store_result` gives the rows `(username, password)` of the answer, `none` when
the query fails; `timestr` is the formatted local time; `ofs_open` tells whether the
output stream for a path opens; `regexLimit` is the length of the longest line that
`std::regex_match` can take on the call stack of the process. -/
structure Env where
  mysql_query : Str → Option (List (Str × Str))
  timestr : Str
  ofs_open : Str → Bool
  regexLimit : Nat

/-- What the decoder did to the outside world: the statements sent to MySQL and the
files written, `(path, bytes)`, both in order. -/
structure Trace where
  issued : List Str
  written : List (Str × Str)
deriving DecidableEq, Repr

/-- The member `c_str()` read as a C string: the bytes before the first NUL. -/
def c_str (s : Str) : Str := s.takeWhile (fun c => c != '\x00')

/-- The call `snprintf(order, 256, ...)`: at most 255 bytes are kept. -/
def snprintf256 (s : Str) : Str := s.take 255

/-- The `while` loop of `UserVerify` over the fetched rows. -/
def UserVerify.rows (pwd : Str) (isLogin : Bool) : List (Str × Str) → Bool → Bool
  | [], flag => flag
  | row :: rest, _ =>
    UserVerify.rows pwd isLogin rest (if isLogin then (if pwd = row.2 then true else false) else false)

/-- The function `UserVerify`. -/
def UserVerify (env : Env) (name pwd : Str) (isLogin : Bool) (tr : Trace) : Bool × Trace :=
  if name = [] ∨ pwd = [] then (false, tr)
  else
    let flag0 : Bool := if !isLogin then true else false
    let order := snprintf256 ("SELECT username, password FROM user WHERE username=\'".toList
        ++ c_str name ++ "\' LIMIT 1".toList)
    let tr1 := { tr with issued := tr.issued ++ [order] }
    match env.mysql_query order with
    | none => (false, tr1)
    | some res =>
      let flag := UserVerify.rows pwd isLogin res flag0
      if !isLogin ∧ flag = true then
        let order2 := snprintf256 ("INSERT INTO user(username, password) VALUES(\'".toList
            ++ c_str name ++ "\',\'".toList ++ c_str pwd ++ "\')".toList)
        let tr2 := { tr1 with issued := tr1.issued ++ [order2] }
        -- `if(mysql_query(sql, order)) { flag = false; }`, then `flag = true;`
        let flag1 : Bool := if (env.mysql_query order2).isNone then false else flag
        let flag2 : Bool := (fun _ => true) flag1
        (flag2, tr2)
      else (flag, tr1)

/-- The function `IsUserLoggedIn`. -/
def IsUserLoggedIn (r : Request) : Bool :=
  match dictFind r.header_ "Cookie".toList with
  | none => false
  | some cookies =>
    match find cookies "username=".toList 0 with
    | none => false
    | some _ => true

/-- The extension check of `SaveUploadFile`: some `ext` is a suffix of the file name. -/
def SaveUploadFile.valid (filename : Str) : List Str → Bool
  | [] => false
  | ext :: rest =>
    if filename.length ≥ ext.length ∧ filename.drop (filename.length - ext.length) = ext then true
    else SaveUploadFile.valid filename rest

/-- Steps 1 and 2 of `SaveUploadFile`: the part between the first two boundary markers,
`none` when the function returns `false` before. -/
def SaveUploadFile.part (r : Request) : Option Str :=
  match dictFind r.header_ "Content-Type".toList with
  | none => none
  | some contentType =>
  match find contentType "boundary=".toList 0 with
  | none => none
  | some bpos =>
  let boundary := "--".toList ++ contentType.drop (bpos + 9)
  match find r.body_ boundary 0 with
  | none => none
  | some pos0 =>
  let pos := pos0 + (boundary.length + 2)
  match find r.body_ boundary pos with
  | none => none
  | some end_ => some (substr r.body_ pos (end_ - pos))

/-- Steps 3 to 5 of `SaveUploadFile` on the part: the file name and the file data with
which the save step is reached, `none` when the function returns `false` before. -/
def SaveUploadFile.file (part field : Str) (exts : List Str) : Option (Str × Str) :=
  match find part "Content-Disposition:".toList 0 with
  | none => none
  | some dispPos =>
  match find part "name=\"".toList dispPos with
  | none => none
  | some namePos0 =>
  let namePos := namePos0 + 6
  let nameEnd := find part "\"".toList namePos
  let formName := substrTo part namePos nameEnd
  if formName ≠ field then none
  else
  match find part "filename=\"".toList dispPos with
  | none => none
  | some filenamePos0 =>
  let filenamePos := filenamePos0 + 10
  let filenameEnd := find part "\"".toList filenamePos
  let filename := substrTo part filenamePos filenameEnd
  if !SaveUploadFile.valid filename exts then none
  else
  match filenameEnd with
  | none => none
  | some filenameEnd =>
  match find part "\r\n\r\n".toList filenameEnd with
  | none => none
  | some dataPos0 =>
  let dataPos := dataPos0 + 4
  match rfind part "\r\n".toList with
  | none => none
  | some dataEnd =>
  if dataEnd ≤ dataPos then none
  else some (filename, substr part dataPos (dataEnd - dataPos))

/-- Steps 1 to 5 of `SaveUploadFile`: the file name and the file data with which the
save step is reached, `none` when the function returns `false` before. -/
def SaveUploadFile.extract (r : Request) (field : Str) (exts : List Str) : Option (Str × Str) :=
  match SaveUploadFile.part r with
  | none => none
  | some part => SaveUploadFile.file part field exts

/-- The function `SaveUploadFile`: steps 6 to 8 after the extraction. The stream is
opened on `savepath.c_str()`, so the file written is named by the bytes of the path
before its first NUL. -/
def SaveUploadFile (env : Env) (r : Request) (field dir : Str) (exts : List Str) (tr : Trace) :
    Bool × Trace :=
  match SaveUploadFile.extract r field exts with
  | none => (false, tr)
  | some (filename, filedata) =>
    let saveName := env.timestr ++ "_".toList ++ filename
    let savepath := dir ++ saveName
    if env.ofs_open (c_str savepath) then
      (true, { tr with written := tr.written ++ [(c_str savepath, filedata)] })
    else (false, tr)

/-! ## POST dispatch, the body and the orchestrator -/

/-- The body `{"success":true}`. -/
def jsonSuccess : Str := "\x7b\"success\":true\x7d".toList

/-- The body `{"success":false,"msg":"未登录"}`, the message in UTF-8. -/
def jsonNotLoggedIn : Str :=
  "\x7b\"success\":false,\"msg\":\"\xE6\x9C\xAA\xE7\x99\xBB\xE5\xBD\x95\"\x7d".toList

/-- The body `{"success":false,"msg":"上传失败"}`, the message in UTF-8. -/
def jsonUploadFailed : Str :=
  "\x7b\"success\":false,\"msg\":\"\xE4\xB8\x8A\xE4\xBC\xA0\xE5\xA4\xB1\xE8\xB4\xA5\"\x7d".toList

/-- The first `if` of `ParsePost_`: the urlencoded form and the login or registration.
Reading `header_["Content-Type"]`, `post_["username"]` and `post_["password"]` adds
the entries that are absent. -/
def ParsePost_.form (env : Env) (r : Request) (tr : Trace) : Res (Request × Trace) :=
  if r.method_ = "POST".toList then
    let r1 := { r with header_ := dictTouch r.header_ "Content-Type".toList }
    if dictFind r1.header_ "Content-Type".toList
        = some "application/x-www-form-urlencoded".toList then
      match ParseFromUrlencoded_ r1 with
      | .fault f => .fault f
      | .ok r2 =>
        match DEFAULT_HTML_TAG.lookup r2.path_ with
        | none => .ok (r2, tr)
        | some tag =>
          if tag = 0 ∨ tag = 1 then
            let isLogin : Bool := decide (tag = 1)
            let post1 := dictTouch (dictTouch r2.post_ "username".toList) "password".toList
            let r3 := { r2 with post_ := post1 }
            match UserVerify env ((dictFind r3.post_ "username".toList).getD [])
                ((dictFind r3.post_ "password".toList).getD []) isLogin tr with
            | (true, tr1) => .ok ({ r3 with path_ := "/welcome.html".toList }, tr1)
            | (false, tr1) => .ok ({ r3 with path_ := "/error.html".toList }, tr1)
          else .ok (r2, tr)
    else .ok (r1, tr)
  else .ok (r, tr)

/-- One of the two upload branches of `ParsePost_`. -/
def ParsePost_.upload (env : Env) (r : Request) (field dir : Str) (exts : List Str)
    (tr : Trace) : Request × Trace :=
  if !IsUserLoggedIn r then ({ r with body_ := jsonNotLoggedIn }, tr)
  else
    match SaveUploadFile env r field dir exts tr with
    | (true, tr1) => ({ r with body_ := jsonSuccess }, tr1)
    | (false, tr1) => ({ r with body_ := jsonUploadFailed }, tr1)

/-- The function `ParsePost_`. -/
def ParsePost_ (env : Env) (r : Request) (tr : Trace) : Res (Request × Trace) :=
  match ParsePost_.form env r tr with
  | .fault f => .fault f
  | .ok (r1, tr1) =>
    if r1.path_ = "/upload_image".toList ∧ r1.method_ = "POST".toList then
      .ok (ParsePost_.upload env r1 "image".toList "resources/images/".toList
        [".jpg".toList, ".jpeg".toList] tr1)
    else if r1.path_ = "/upload_video".toList ∧ r1.method_ = "POST".toList then
      .ok (ParsePost_.upload env r1 "video".toList "resources/video/".toList
        [".mp4".toList] tr1)
    else .ok (r1, tr1)

/-- The function `ParseBody_`. -/
def ParseBody_ (env : Env) (r : Request) (line : Str) (tr : Trace) : Res (Request × Trace) :=
  match ParsePost_ env { r with body_ := line } tr with
  | .fault f => .fault f
  | .ok (r1, tr1) => .ok ({ r1 with state_ := .FINISH }, tr1)

/-- What a call of `parse` leaves behind: the returned flag, the request, the readable
window of the buffer and the trace. -/
structure Parsed where
  ret : Bool
  req : Request
  buff : Str
  trace : Trace
deriving DecidableEq, Repr

/-- The `switch(state_)` of `parse` on one line; `readable` is `buff.ReadableBytes()`.
The flag is `false` for the `return false` of the request-line case. -/
def parse.switch (env : Env) (r : Request) (line : Str) (readable : Nat) (tr : Trace) :
    Res (Bool × Request × Trace) :=
  match r.state_ with
  | .REQUEST_LINE =>
    match ParseRequestLine_ env.regexLimit r line with
    | .fault f => .fault f
    | .ok (false, r1) => .ok (false, r1, tr)
    | .ok (true, r1) => .ok (true, ParsePath_ r1, tr)
  | .HEADERS =>
    match ParseHeader_ env.regexLimit r line with
    | .fault f => .fault f
    | .ok r1 => .ok (true, if readable ≤ 2 then { r1 with state_ := .FINISH } else r1, tr)
  | .BODY =>
    match ParseBody_ env r line tr with
    | .fault f => .fault f
    | .ok (r1, tr1) => .ok (true, r1, tr1)
  | .FINISH => .ok (true, r, tr)

/-- The `while` loop of `parse`. -/
def parse.loop (env : Env) : Nat → Request → Str → Trace → Res Parsed
  | 0, r, buff, tr =>
    if buff.length ≠ 0 ∧ r.state_ ≠ .FINISH then .fault .fuel else .ok ⟨true, r, buff, tr⟩
  | fuel + 1, r, buff, tr =>
    if buff.length ≠ 0 ∧ r.state_ ≠ .FINISH then
      let lineEnd := search buff
      let line := buff.take lineEnd
      match parse.switch env r line buff.length tr with
      | .fault f => .fault f
      | .ok (false, r1, tr1) => .ok ⟨false, r1, buff, tr1⟩
      | .ok (true, r1, tr1) =>
        if lineEnd = buff.length then .ok ⟨true, r1, buff, tr1⟩
        else parse.loop env fuel r1 (buff.drop (lineEnd + 2)) tr1
    else .ok ⟨true, r, buff, tr⟩

/-- The function `parse`. Every turn of the loop but the last takes a line and its
terminator off the window, so as many turns as the window has bytes are enough. -/
def parse (env : Env) (r : Request) (buff : Str) (tr : Trace) : Res Parsed :=
  if buff.length ≤ 0 then .ok ⟨false, r, buff, tr⟩
  else parse.loop env buff.length r buff tr

/-- An outside world in which every query fails and no file opens; `std::regex` stands
lines of up to 26000 bytes. -/
def env0 : Env :=
  { mysql_query := fun _ => none, timestr := [], ofs_open := fun _ => false,
    regexLimit := 26000 }

/-- The empty trace. -/
def tr0 : Trace := { issued := [], written := [] }

/-! ## The specification's vocabulary -/

/-- Path normalisation as the specification words it: `/` becomes `/index.html`, one of
the six bare route names gets `.html` appended, any other path is left as it is. -/
def normalisedPath (p : Str) : Str :=
  if p = "/".toList then "/index.html".toList
  else if p = "/index".toList ∨ p = "/register".toList ∨ p = "/login".toList
      ∨ p = "/welcome".toList ∨ p = "/video".toList ∨ p = "/picture".toList then
    p ++ ".html".toList
  else p

/-- A text with every `+` replaced by a space. -/
def plusToSpace (s : Str) : Str := s.map (fun c => if c = '+' then ' ' else c)

/-- The bytes `k_1=v_1&...&k_m=v_m&` of a list of pairs, each followed by `&`. -/
def formPairs : List (Str × Str) → Str
  | [] => []
  | kv :: rest => kv.1 ++ '=' :: kv.2 ++ '&' :: formPairs rest

/-- The urlencoded body `k_1=v_1&...&k_n=v_n` of a non-empty list of pairs, given as the
pairs before the last one and the last one. -/
def formBody (init : List (Str × Str)) (last : Str × Str) : Str :=
  formPairs init ++ (last.1 ++ '=' :: last.2)

/-- The line `Content-Disposition: form-data; name="F"; filename="f"` of a part. -/
def dispositionLine (F f : Str) : Str :=
  "Content-Disposition: form-data; name=\"".toList ++ F ++ "\"; filename=\"".toList ++ f
    ++ "\"".toList

/-- The multipart body with one part:
`"--" b CRLF` the disposition line `CRLF CRLF d CRLF "--" b "--"`. -/
def multipartBody (b F f d : Str) : Str :=
  "--".toList ++ b ++ CRLF ++ dispositionLine F f ++ CRLF ++ CRLF ++ d ++ CRLF
    ++ "--".toList ++ b ++ "--".toList

/-- Two texts differ at a position that both have. -/
def clash : Str → Str → Bool
  | a :: as, p :: ps => a != p || clash as ps
  | _, _ => false

/-- No occurrence of `pat` starts inside the text, whatever follows the text. -/
def clashAll (pat : Str) : Str → Bool
  | [] => true
  | a :: as => clash (a :: as) pat && clashAll pat as

/-- The order `REQUEST_LINE < HEADERS < BODY < FINISH` of the states, as a number. -/
def PARSE_STATE.rank : PARSE_STATE → Nat
  | .REQUEST_LINE => 0
  | .HEADERS => 1
  | .BODY => 2
  | .FINISH => 3

/-- The first occurrence of `pat` in `s` at or after `pos` starts at `k`. -/
def FirstAt (s pat : Str) (pos k : Nat) : Prop :=
  pos ≤ k ∧ k ≤ s.length ∧ pat <+: s.drop k ∧ ∀ j, pos ≤ j → j < k → ¬ pat <+: s.drop j

/-- An outside world in which every `SELECT` finds no row and every other statement
fails; no file opens. -/
def envInsertFails : Env :=
  { mysql_query := fun order => if "SELECT".toList.isPrefixOf order then some [] else none,
    timestr := [], ofs_open := fun _ => false, regexLimit := 26000 }

/-- The decoded user name: the form field `username`, empty when the field is absent. -/
def usernameOf (post : Dict) : Str := (dictFind post "username".toList).getD []

/-- The decoded password: the form field `password`, empty when the field is absent. -/
def passwordOf (post : Dict) : Str := (dictFind post "password".toList).getD []

/-- A `POST` to `/upload_image` or `/upload_video` that holds the body
`{"success":true}`. -/
def uploadSucceeded (r : Request) : Prop :=
  r.method_ = "POST".toList
    ∧ (r.path_ = "/upload_image".toList ∨ r.path_ = "/upload_video".toList)
    ∧ r.body_ = jsonSuccess

instance (r : Request) : Decidable (uploadSucceeded r) := by
  unfold uploadSucceeded
  infer_instance

/-! ## Maps -/

theorem dictFind_dictSet (d : Dict) (k v k' : Str) :
    dictFind (dictSet d k v) k' = if k' = k then some v else dictFind d k' := by
  induction d with
  | nil =>
    by_cases h : k = k'
    · subst h; simp [dictSet, dictFind]
    · have h' : ¬ k' = k := fun e => h e.symm
      simp [dictSet, dictFind, h, h']
  | cons e rest ih =>
    obtain ⟨a, b⟩ := e
    by_cases h : a = k
    · subst h
      by_cases h2 : a = k'
      · subst h2; simp [dictSet, dictFind]
      · have h' : ¬ k' = a := fun e => h2 e.symm
        simp [dictSet, dictFind, h2, h']
    · by_cases h2 : a = k'
      · subst h2
        simp [dictSet, dictFind, h]
      · simp [dictSet, dictFind, h, h2, ih]

/-! ## The matcher -/

theorem backtrack_none (k : Str → Option (List Str)) (s : Str) (n : Nat)
    (h : ∀ m, m ≤ n → k (s.drop m) = none) : backtrack k s n = none := by
  induction n with
  | zero =>
    have h0 := h 0 (Nat.le_refl 0)
    simp at h0
    simp [backtrack, h0]
  | succ n ih =>
    have h1 := h (n + 1) (Nat.le_refl _)
    simp only [backtrack, h1]
    exact ih (fun m hm => h m (Nat.le_succ_of_le hm))

theorem backtrack_top (k : Str → Option (List Str)) (s : Str) (n : Nat)
    (h : ∀ m, m < n → k (s.drop m) = none) :
    backtrack k s n = (k (s.drop n)).map (fun caps => s.take n :: caps) := by
  cases n with
  | zero => simp [backtrack]
  | succ n =>
    simp only [backtrack]
    cases hk : k (s.drop (n + 1)) with
    | some caps => simp
    | none =>
      simp only [Option.map_none']
      exact backtrack_none k s n (fun m hm => h m (Nat.lt_succ_of_le hm))

theorem drop_lt_takeWhile (cls : Char → Bool) (s : Str) (m : Nat)
    (h : m < (s.takeWhile cls).length) : ∃ x t, s.drop m = x :: t ∧ cls x = true := by
  induction s generalizing m with
  | nil => simp at h
  | cons a s ih =>
    by_cases ha : cls a = true
    · cases m with
      | zero => exact ⟨a, s, by simp, ha⟩
      | succ m =>
        simp [List.takeWhile, ha] at h
        simpa using ih m h
    · simp [List.takeWhile, ha] at h

theorem drop_takeWhile_length (cls : Char → Bool) (s : Str) :
    s.drop (s.takeWhile cls).length = s.dropWhile cls := by
  induction s with
  | nil => simp
  | cons a s ih =>
    by_cases ha : cls a = true
    · simp [List.takeWhile, List.dropWhile, ha, ih]
    · simp [List.takeWhile, List.dropWhile, ha]

theorem take_takeWhile_length (cls : Char → Bool) (s : Str) :
    s.take (s.takeWhile cls).length = s.takeWhile cls := by
  induction s with
  | nil => simp
  | cons a s ih =>
    by_cases ha : cls a = true
    · simp [List.takeWhile, ha, ih]
    · simp [List.takeWhile, ha]

theorem matchAtoms_group_lit (cls : Char → Bool) (c : Char) (R : List Atom) (s : Str)
    (hc : ∀ x, cls x = true → x ≠ c) :
    matchAtoms (.group cls :: .lit c :: R) s =
      match s.dropWhile cls with
      | [] => none
      | x :: t =>
        if x = c then (matchAtoms R t).map (fun caps => s.takeWhile cls :: caps) else none := by
  have hlow : ∀ m, m < (s.takeWhile cls).length →
      matchAtoms (.lit c :: R) (s.drop m) = none := by
    intro m hm
    obtain ⟨x, t, hx, hcx⟩ := drop_lt_takeWhile cls s m hm
    rw [hx]
    simp [matchAtoms, hc x hcx]
  rw [matchAtoms, backtrack_top _ _ _ hlow, drop_takeWhile_length, take_takeWhile_length]
  cases hd : s.dropWhile cls with
  | nil => simp [matchAtoms]
  | cons x t =>
    by_cases hx : x = c
    · simp [matchAtoms, hx]
    · simp [matchAtoms, hx]

theorem matchAtoms_group_end (cls : Char → Bool) (s : Str) :
    matchAtoms [.group cls] s = if s.all cls then some [s] else none := by
  have hlow : ∀ m, m < (s.takeWhile cls).length → matchAtoms [] (s.drop m) = none := by
    intro m hm
    obtain ⟨x, t, hx, _⟩ := drop_lt_takeWhile cls s m hm
    rw [hx]
    simp [matchAtoms]
  rw [matchAtoms, backtrack_top _ _ _ hlow, drop_takeWhile_length, take_takeWhile_length]
  by_cases hall : s.all cls = true
  · have h1 : s.takeWhile cls = s := by
      rw [List.takeWhile_eq_self_iff]
      intro x hx
      exact (List.all_eq_true.mp hall) x hx
    have h2 : s.dropWhile cls = [] := by
      rw [List.dropWhile_eq_nil_iff]
      intro x hx
      exact (List.all_eq_true.mp hall) x hx
    simp [matchAtoms, h1, h2, hall]
  · have h2 : s.dropWhile cls ≠ [] := by
      intro h
      rw [List.dropWhile_eq_nil_iff] at h
      exact hall (List.all_eq_true.mpr h)
    simp [matchAtoms, h2, hall]

theorem takeWhile_append_stop (cls : Char → Bool) (a : Str) (x : Char) (b : Str)
    (ha : ∀ y ∈ a, cls y = true) (hx : cls x = false) :
    (a ++ x :: b).takeWhile cls = a := by
  induction a with
  | nil => simp [List.takeWhile, hx]
  | cons y a ih =>
    have hy : cls y = true := ha y (by simp)
    simp [List.takeWhile, hy]
    exact ih (fun z hz => ha z (by simp [hz]))

theorem dropWhile_append_stop (cls : Char → Bool) (a : Str) (x : Char) (b : Str)
    (ha : ∀ y ∈ a, cls y = true) (hx : cls x = false) :
    (a ++ x :: b).dropWhile cls = x :: b := by
  induction a with
  | nil => simp [List.dropWhile, hx]
  | cons y a ih =>
    have hy : cls y = true := ha y (by simp)
    simp [List.dropWhile, hy]
    exact ih (fun z hz => ha z (by simp [hz]))

theorem matchAtoms_lit_cons (c : Char) (R : List Atom) (t : Str) :
    matchAtoms (.lit c :: R) (c :: t) = matchAtoms R t := by
  simp [matchAtoms]

theorem noSpace_cls (m : Str) (h : ' ' ∉ m) : ∀ y ∈ m, (fun c : Char => c != ' ') y = true := by
  intro y hy
  have : y ≠ ' ' := fun e => h (e ▸ hy)
  simp [this]

theorem matchAtoms_requestLine (m p v : Str) (hm : ' ' ∉ m) (hp : ' ' ∉ p) (hv : ' ' ∉ v) :
    matchAtoms requestLinePatten (m ++ ' ' :: p ++ " HTTP/".toList ++ v) = some [m, p, v] := by
  have hcls : ∀ x : Char, (fun c : Char => c != ' ') x = true → x ≠ ' ' := by
    intro x hx; simpa using hx
  have e1 : m ++ ' ' :: p ++ " HTTP/".toList ++ v
      = m ++ ' ' :: (p ++ ' ' :: ('H' :: 'T' :: 'T' :: 'P' :: '/' :: v)) := by
    simp
  rw [e1, requestLinePatten, matchAtoms_group_lit _ _ _ _ hcls,
    dropWhile_append_stop _ m ' ' _ (noSpace_cls m hm) (by simp),
    takeWhile_append_stop _ m ' ' _ (noSpace_cls m hm) (by simp)]
  simp only [if_true]
  rw [matchAtoms_group_lit _ _ _ _ hcls,
    dropWhile_append_stop _ p ' ' _ (noSpace_cls p hp) (by simp),
    takeWhile_append_stop _ p ' ' _ (noSpace_cls p hp) (by simp)]
  have hall : v.all (fun c : Char => c != ' ') = true :=
    List.all_eq_true.mpr (noSpace_cls v hv)
  simp only [if_true, matchAtoms_lit_cons, matchAtoms_group_end, hall, Option.map_some']

theorem ParsePath__path (r : Request) : (ParsePath_ r).path_ = normalisedPath r.path_ := by
  unfold ParsePath_ normalisedPath
  by_cases h0 : r.path_ = "/".toList
  · simp [h0]
  · simp only [h0, if_false]
    simp only [DEFAULT_HTML, ParsePath_.loop]
    by_cases h1 : r.path_ = "/index".toList
    · simp [h1]
    · by_cases h2 : r.path_ = "/register".toList
      · simp [h2]
      · by_cases h3 : r.path_ = "/login".toList
        · simp [h3]
        · by_cases h4 : r.path_ = "/welcome".toList
          · simp [h4]
          · by_cases h5 : r.path_ = "/video".toList
            · simp [h5]
            · by_cases h6 : r.path_ = "/picture".toList
              · simp [h6]
              · have g1 : ¬ "/index".toList = r.path_ := fun e => h1 e.symm
                have g2 : ¬ "/register".toList = r.path_ := fun e => h2 e.symm
                have g3 : ¬ "/login".toList = r.path_ := fun e => h3 e.symm
                have g4 : ¬ "/welcome".toList = r.path_ := fun e => h4 e.symm
                have g5 : ¬ "/video".toList = r.path_ := fun e => h5 e.symm
                have g6 : ¬ "/picture".toList = r.path_ := fun e => h6 e.symm
                simp only [g1, g2, g3, g4, g5, g6, h1, h2, h3, h4, h5, h6, if_false, or_self]

theorem ParsePath__rest (r : Request) : ParsePath_ r = { r with path_ := (ParsePath_ r).path_ } := by
  unfold ParsePath_
  split <;> rfl

/-! ## The two calls of `regex_match` -/

theorem regex_match_fit (stack : Nat) (patten : List Atom) (line : Str)
    (h : line.length ≤ stack) : regex_match stack patten line = .ok (matchAtoms patten line) := by
  have : ¬ stack < line.length := by omega
  simp only [regex_match, this, if_false]

theorem regex_match_overflow (stack : Nat) (patten : List Atom) (line : Str)
    (h : stack < line.length) : regex_match stack patten line = .fault .stackOverflow := by
  simp only [regex_match, h, if_true]

theorem regex_match_fault (stack : Nat) (patten : List Atom) (line : Str) (f : Fault)
    (h : regex_match stack patten line = .fault f) : f = .stackOverflow ∧ stack < line.length := by
  unfold regex_match at h
  split_ifs at h with hc
  simp only [Res.fault.injEq] at h
  exact ⟨h.symm, hc⟩

theorem ParseRequestLine__overflow (stack : Nat) (r : Request) (line : Str)
    (h : stack < line.length) : ParseRequestLine_ stack r line = .fault .stackOverflow := by
  simp only [ParseRequestLine_, regex_match_overflow stack _ line h]

theorem ParseRequestLine__fit (stack : Nat) (r : Request) (line : Str)
    (h : line.length ≤ stack) :
    ParseRequestLine_ stack r line
      = match matchAtoms requestLinePatten line with
        | some caps =>
          .ok (true, { r with method_ := subMatch caps 1, path_ := subMatch caps 2,
                              version_ := subMatch caps 3, state_ := .HEADERS })
        | none => .ok (false, r) := by
  simp only [ParseRequestLine_, regex_match_fit stack _ line h]
  cases matchAtoms requestLinePatten line <;> rfl

theorem ParseRequestLine__accept (stack : Nat) (r : Request) (m p v : Str)
    (hm : ' ' ∉ m) (hp : ' ' ∉ p) (hv : ' ' ∉ v)
    (hfit : (m ++ ' ' :: p ++ " HTTP/".toList ++ v).length ≤ stack) :
    ParseRequestLine_ stack r (m ++ ' ' :: p ++ " HTTP/".toList ++ v)
      = .ok (true, { r with method_ := m, path_ := p, version_ := v, state_ := .HEADERS }) := by
  rw [ParseRequestLine__fit stack r _ hfit, matchAtoms_requestLine m p v hm hp hv]
  rfl

theorem ParseRequestLine__fault (stack : Nat) (r : Request) (line : Str) (f : Fault)
    (h : ParseRequestLine_ stack r line = .fault f) : f = .stackOverflow ∧ stack < line.length := by
  by_cases hc : stack < line.length
  · rw [ParseRequestLine__overflow stack r line hc] at h
    simp only [Res.fault.injEq] at h
    exact ⟨h.symm, hc⟩
  · rw [ParseRequestLine__fit stack r line (by omega)] at h
    split at h <;> cases h

/-- What a call of `ParseRequestLine_` that returns has done. -/
theorem ParseRequestLine__ok (stack : Nat) (r r1 : Request) (line : Str) (b : Bool)
    (h : ParseRequestLine_ stack r line = .ok (b, r1)) :
    (b = true ∧ ∃ caps, matchAtoms requestLinePatten line = some caps
        ∧ r1 = { r with method_ := subMatch caps 1, path_ := subMatch caps 2,
                        version_ := subMatch caps 3, state_ := .HEADERS })
    ∨ (b = false ∧ r1 = r ∧ matchAtoms requestLinePatten line = none) := by
  by_cases hc : stack < line.length
  · rw [ParseRequestLine__overflow stack r line hc] at h
    cases h
  · rw [ParseRequestLine__fit stack r line (by omega)] at h
    cases hm : matchAtoms requestLinePatten line with
    | some caps =>
      rw [hm] at h
      simp only [Res.ok.injEq, Prod.mk.injEq] at h
      exact Or.inl ⟨h.1.symm, caps, rfl, h.2.symm⟩
    | none =>
      rw [hm] at h
      simp only [Res.ok.injEq, Prod.mk.injEq] at h
      exact Or.inr ⟨h.1.symm, h.2.symm, rfl⟩

theorem ParseHeader__overflow (stack : Nat) (r : Request) (line : Str)
    (h : stack < line.length) : ParseHeader_ stack r line = .fault .stackOverflow := by
  simp only [ParseHeader_, regex_match_overflow stack _ line h]

theorem ParseHeader__fit (stack : Nat) (r : Request) (line : Str) (h : line.length ≤ stack) :
    ParseHeader_ stack r line
      = match matchAtoms headerPatten line with
        | some caps =>
          .ok { r with header_ := dictSet r.header_ (subMatch caps 1) (subMatch caps 2) }
        | none => .ok { r with state_ := .BODY } := by
  simp only [ParseHeader_, regex_match_fit stack _ line h]
  cases matchAtoms headerPatten line <;> rfl

theorem ParseHeader__fault (stack : Nat) (r : Request) (line : Str) (f : Fault)
    (h : ParseHeader_ stack r line = .fault f) : f = .stackOverflow ∧ stack < line.length := by
  by_cases hc : stack < line.length
  · rw [ParseHeader__overflow stack r line hc] at h
    simp only [Res.fault.injEq] at h
    exact ⟨h.symm, hc⟩
  · rw [ParseHeader__fit stack r line (by omega)] at h
    split at h <;> cases h

/-- What a call of `ParseHeader_` that returns has done. -/
theorem ParseHeader__ok (stack : Nat) (r r1 : Request) (line : Str)
    (h : ParseHeader_ stack r line = .ok r1) :
    (∃ caps, r1 = { r with header_ := dictSet r.header_ (subMatch caps 1) (subMatch caps 2) })
    ∨ r1 = { r with state_ := .BODY } := by
  by_cases hc : stack < line.length
  · rw [ParseHeader__overflow stack r line hc] at h
    cases h
  · rw [ParseHeader__fit stack r line (by omega)] at h
    cases hm : matchAtoms headerPatten line with
    | some caps =>
      rw [hm] at h
      simp only [Res.ok.injEq] at h
      exact Or.inl ⟨caps, h.symm⟩
    | none =>
      rw [hm] at h
      simp only [Res.ok.injEq] at h
      exact Or.inr h.symm

/-! ## The request line, the path, the headers and the body -/

/-- C4. `ParsePath_` rewrites the path `/` to `/index.html`, appends `.html` to a path
that is one of `/index`, `/register`, `/login`, `/welcome`, `/video`, `/picture`, and
leaves every other path, and every other member, unchanged. -/
theorem ParsePath__normalises (r : Request) :
    ParsePath_ r = { r with path_ :=
      if r.path_ = "/".toList then "/index.html".toList
      else if r.path_ = "/index".toList ∨ r.path_ = "/register".toList
          ∨ r.path_ = "/login".toList ∨ r.path_ = "/welcome".toList
          ∨ r.path_ = "/video".toList ∨ r.path_ = "/picture".toList then
        r.path_ ++ ".html".toList
      else r.path_ }
    ∧ (ParsePath_ { Init with path_ := "/".toList }).path_ = "/index.html".toList
    ∧ (ParsePath_ { Init with path_ := "/login".toList }).path_ = "/login.html".toList
    ∧ (ParsePath_ { Init with path_ := "/foo".toList }).path_ = "/foo".toList := by
  refine ⟨?_, by decide, by decide, by decide⟩
  rw [ParsePath__rest r, ParsePath__path r]
  rfl

theorem ParsePost__not_post (env : Env) (r : Request) (tr : Trace)
    (hm : r.method_ ≠ "POST".toList) : ParsePost_ env r tr = .ok (r, tr) := by
  simp only [ParsePost_, ParsePost_.form, hm, if_false, and_false]

/-- C6. For a request in state `BODY` whose method is not `POST`, processing a line as
the body sets the body to that line and the state to `FINISH`, leaves the method, the
path, the version, the headers and the form fields as they were, and touches nothing
outside the request. -/
theorem ParseBody__verbatim (env : Env) (r : Request) (line : Str) (readable : Nat) (tr : Trace)
    (hs : r.state_ = .BODY) (hm : r.method_ ≠ "POST".toList) :
    ParseBody_ env r line tr = .ok ({ r with body_ := line, state_ := .FINISH }, tr)
    ∧ parse.switch env r line readable tr
        = .ok (true, { r with body_ := line, state_ := .FINISH }, tr) := by
  have hb : ParseBody_ env r line tr = .ok ({ r with body_ := line, state_ := .FINISH }, tr) := by
    have hm' : ({ r with body_ := line } : Request).method_ ≠ "POST".toList := hm
    simp only [ParseBody_, ParsePost__not_post env _ tr hm']
  refine ⟨hb, ?_⟩
  simp only [parse.switch, hs, hb]

/-- C6, at a `GET` request in state `BODY` and the line `a=1&b`. -/
theorem ParseBody__verbatim_witness :
    ParseBody_ env0 { Init with method_ := "GET".toList, state_ := .BODY } "a=1&b".toList tr0
      = .ok ({ Init with method_ := "GET".toList, body_ := "a=1&b".toList, state_ := .FINISH }, tr0)
    ∧ parse.switch env0 { Init with method_ := "GET".toList, state_ := .BODY } "a=1&b".toList 5 tr0
      = .ok (true, { Init with method_ := "GET".toList, body_ := "a=1&b".toList,
                               state_ := .FINISH }, tr0) :=
  ParseBody__verbatim env0 { Init with method_ := "GET".toList, state_ := .BODY } "a=1&b".toList 5
    tr0 rfl (by decide)

/-! ## The orchestrator on a complete request -/

theorem form_switch_inv (n : Nat) (st : FormScan) (hj : st.j ≤ st.i) :
    ParseFromUrlencoded_.switch n st = .fault .outOfRange
    ∨ ∃ s, ParseFromUrlencoded_.switch n st = .ok s ∧ st.i ≤ s.i ∧ s.j ≤ s.i + 1 := by
  unfold ParseFromUrlencoded_.switch
  simp only
  split_ifs
  · exact Or.inr ⟨_, rfl, Nat.le_refl _, Nat.le_refl _⟩
  · exact Or.inr ⟨_, rfl, Nat.le_refl _, Nat.le_succ_of_le hj⟩
  · exact Or.inr ⟨_, rfl, by simp, by simp only; omega⟩
  · exact Or.inl rfl
  · exact Or.inr ⟨_, rfl, Nat.le_refl _, Nat.le_refl _⟩
  · exact Or.inr ⟨_, rfl, Nat.le_refl _, Nat.le_succ_of_le hj⟩

theorem form_loop_inv (n : Nat) :
    ∀ (fuel : Nat) (st : FormScan), n ≤ st.i + fuel → st.j ≤ st.i →
      ParseFromUrlencoded_.loop n fuel st = .fault .outOfRange
      ∨ ∃ s, ParseFromUrlencoded_.loop n fuel st = .ok s ∧ s.j ≤ s.i := by
  intro fuel
  induction fuel with
  | zero =>
    intro st hn hj
    have : ¬ st.i < n := by omega
    exact Or.inr ⟨st, by simp [ParseFromUrlencoded_.loop, this], hj⟩
  | succ fuel ih =>
    intro st hn hj
    by_cases hlt : st.i < n
    · rcases form_switch_inv n st hj with hf | ⟨s, hs, hi, hj'⟩
      · left
        simp [ParseFromUrlencoded_.loop, hlt, hf]
      · have := ih { s with i := s.i + 1 } (by simp only; omega) hj'
        simpa [ParseFromUrlencoded_.loop, hlt, hs] using this
    · exact Or.inr ⟨st, by simp [ParseFromUrlencoded_.loop, hlt], hj⟩

theorem ParseFromUrlencoded__fault (r : Request) (f : Fault)
    (h : ParseFromUrlencoded_ r = .fault f) : f = .outOfRange := by
  unfold ParseFromUrlencoded_ at h
  by_cases h0 : r.body_.length = 0
  · simp [h0] at h
  · simp only [h0, if_false] at h
    rcases form_loop_inv r.body_.length r.body_.length
        ⟨r.body_, r.post_, [], [], 0, 0, 0⟩ (by simp) (Nat.le_refl _) with hf | ⟨s, hs, hj⟩
    · rw [hf] at h
      simp only [Res.fault.injEq] at h
      exact h.symm
    · rw [hs] at h
      simp only [hj, if_true] at h
      split_ifs at h

theorem ParsePost__fault (env : Env) (r : Request) (tr : Trace) (f : Fault)
    (h : ParsePost_ env r tr = .fault f) : f = .outOfRange := by
  unfold ParsePost_ at h
  cases hform : ParsePost_.form env r tr with
  | ok a =>
    obtain ⟨r1, tr1⟩ := a
    rw [hform] at h
    simp only at h
    split_ifs at h
  | fault e =>
    rw [hform] at h
    simp only [Res.fault.injEq] at h
    subst h
    unfold ParsePost_.form at hform
    simp only at hform
    split_ifs at hform
    cases hp : ParseFromUrlencoded_
        { r with header_ := dictTouch r.header_ "Content-Type".toList } with
    | fault e2 =>
      rw [hp] at hform
      simp only [Res.fault.injEq] at hform
      subst hform
      exact ParseFromUrlencoded__fault _ _ hp
    | ok r2 =>
      rw [hp] at hform
      simp only at hform
      split at hform
      · cases hform
      · split_ifs at hform
        split at hform <;> cases hform

/-- The two ways in which one turn of the `switch` ends without a result: the matcher
overflows the stack on a request line or a header line longer than `env.regexLimit`, or
the form decoder reads past the end of the body. -/
theorem parse_switch_fault (env : Env) (r : Request) (line : Str) (readable : Nat) (tr : Trace)
    (f : Fault) (h : parse.switch env r line readable tr = .fault f) :
    (f = .outOfRange ∧ r.state_ = .BODY)
    ∨ (f = .stackOverflow ∧ r.state_ ≠ .BODY ∧ env.regexLimit < line.length) := by
  unfold parse.switch at h
  cases hst : r.state_ with
  | REQUEST_LINE =>
    rw [hst] at h
    simp only at h
    cases hp : ParseRequestLine_ env.regexLimit r line with
    | ok a =>
      obtain ⟨b, r1⟩ := a
      rw [hp] at h
      cases b <;> cases h
    | fault e =>
      rw [hp] at h
      simp only [Res.fault.injEq] at h
      subst h
      obtain ⟨he, hl⟩ := ParseRequestLine__fault _ _ _ _ hp
      exact Or.inr ⟨he, by decide, hl⟩
  | HEADERS =>
    rw [hst] at h
    simp only at h
    cases hp : ParseHeader_ env.regexLimit r line with
    | ok a => rw [hp] at h; cases h
    | fault e =>
      rw [hp] at h
      simp only [Res.fault.injEq] at h
      subst h
      obtain ⟨he, hl⟩ := ParseHeader__fault _ _ _ _ hp
      exact Or.inr ⟨he, by decide, hl⟩
  | BODY =>
    rw [hst] at h
    simp only at h
    cases hb : ParseBody_ env r line tr with
    | ok a => rw [hb] at h; cases h
    | fault e =>
      rw [hb] at h
      simp only [Res.fault.injEq] at h
      subst h
      unfold ParseBody_ at hb
      cases hp : ParsePost_ env { r with body_ := line } tr with
      | ok a => rw [hp] at hb; cases hb
      | fault e2 =>
        rw [hp] at hb
        simp only [Res.fault.injEq] at hb
        subst hb
        exact Or.inl ⟨ParsePost__fault _ _ _ _ hp, rfl⟩
  | FINISH => rw [hst] at h; cases h

theorem parse_loop_fault (env : Env) :
    ∀ (fuel : Nat) (r : Request) (buff : Str) (tr : Trace) (f : Fault), buff.length ≤ fuel →
      parse.loop env fuel r buff tr = .fault f → f = .outOfRange ∨ f = .stackOverflow := by
  intro fuel
  induction fuel with
  | zero =>
    intro r buff tr f hlen h
    have : buff.length = 0 := by omega
    simp [parse.loop, this] at h
  | succ fuel ih =>
    intro r buff tr f hlen h
    rw [parse.loop] at h
    split_ifs at h with hc
    simp only at h
    cases hsw : parse.switch env r (List.take (search buff) buff) buff.length tr with
    | fault e =>
      rw [hsw] at h
      simp only [Res.fault.injEq] at h
      subst h
      rcases parse_switch_fault _ _ _ _ _ _ hsw with h1 | h1
      · exact Or.inl h1.1
      · exact Or.inr h1.1
    | ok a =>
      obtain ⟨b, r1, tr1⟩ := a
      rw [hsw] at h
      cases b with
      | false => cases h
      | true =>
        simp only at h
        split_ifs at h with he
        refine ih r1 _ tr1 f ?_ h
        simp only [List.length_drop]
        omega

/-- The function `parse` returns on every request and every window, unless the form
decoder reads past the end of the body or the matcher overflows the stack on a long
line; the fuel of the model is never exhausted. -/
theorem parse_fault (env : Env) (r : Request) (buff : Str) (tr : Trace) (f : Fault)
    (h : parse env r buff tr = .fault f) : f = .outOfRange ∨ f = .stackOverflow := by
  unfold parse at h
  split_ifs at h
  exact parse_loop_fault env _ r buff tr f (Nat.le_refl _) h
/-! ## The orchestrator on a window without terminator -/

theorem findAux_none (pat s : Str) (idx : Nat) (h : ¬ pat <:+: s) : findAux pat s idx = none := by
  induction s generalizing idx with
  | nil =>
    have hp : pat.isPrefixOf [] = false := by
      cases hb : pat.isPrefixOf [] with
      | false => rfl
      | true => exact absurd (List.isPrefixOf_iff_prefix.mp hb).isInfix h
    simp [findAux, hp]
  | cons c t ih =>
    have hp : pat.isPrefixOf (c :: t) = false := by
      cases hb : pat.isPrefixOf (c :: t) with
      | false => rfl
      | true => exact absurd (List.isPrefixOf_iff_prefix.mp hb).isInfix h
    have ht : ¬ pat <:+: t := fun hin => h (hin.trans (List.suffix_cons c t).isInfix)
    simp [findAux, hp, ih (idx + 1) ht]

theorem search_none (buff : Str) (h : ¬ CRLF <:+: buff) : search buff = buff.length := by
  simp [search, findAux_none CRLF buff 0 h]

theorem parse_without_CRLF (env : Env) (r : Request) (buff : Str) (tr : Trace)
    (hne : buff ≠ []) (hfin : r.state_ ≠ .FINISH) (hno : ¬ CRLF <:+: buff) :
    parse env r buff tr
      = match parse.switch env r buff buff.length tr with
        | .fault f => .fault f
        | .ok (b, r1, tr1) => .ok ⟨b, r1, buff, tr1⟩ := by
  have hlen : buff.length ≠ 0 := fun h => hne (List.length_eq_zero.mp h)
  obtain ⟨f, hf⟩ : ∃ f, buff.length = f + 1 := ⟨buff.length - 1, by omega⟩
  have hpos : ¬ buff.length ≤ 0 := by omega
  rw [parse, if_neg hpos]
  generalize hsw : parse.switch env r buff buff.length tr = sw
  rw [hf, parse.loop, if_pos ⟨hlen, hfin⟩]
  simp only [search_none buff hno, List.take_length, hsw, if_true]
  cases sw with
  | fault e => rfl
  | ok a =>
    obtain ⟨b, r1, tr1⟩ := a
    cases b <;> rfl

/-- C2, refuted as stated: a request in state `BODY` and the window `x`, which holds no
CRLF; `parse` takes the window as the body and finishes the request. -/
theorem parse_window_processed :
    ({ Init with state_ := .BODY } : Request).state_ ≠ .FINISH
    ∧ ¬ CRLF <:+: "x".toList
    ∧ parse env0 { Init with state_ := .BODY } "x".toList tr0
        = .ok ⟨true, { Init with body_ := "x".toList, state_ := .FINISH }, "x".toList, tr0⟩
    ∧ ({ Init with body_ := "x".toList, state_ := .FINISH } : Request).body_
        ≠ ({ Init with state_ := .BODY } : Request).body_
    ∧ ({ Init with body_ := "x".toList, state_ := .FINISH } : Request).state_
        ≠ ({ Init with state_ := .BODY } : Request).state_ := by
  refine ⟨by decide, ?_, by decide, by decide, by decide⟩
  intro h
  have := h.length_le
  simp [CRLF] at this

/-- C2, amended. For a request whose state is not `FINISH` and a non-empty window
without CRLF, `parse` consumes no byte of the buffer when it returns, and it returns
unless the state is `BODY` and the form decoder reads past the end of the body, or the
state is not `BODY` and the window is longer than the lines `std::regex_match` can take
(`env.regexLimit` bytes), on which the matcher overflows the stack; in state `BODY` the
whole window is taken as the body line: the result is that of `ParseBody_` on the
window. -/
theorem parse_window_kept (env : Env) (r : Request) (buff : Str) (tr : Trace)
    (hne : buff ≠ []) (hfin : r.state_ ≠ .FINISH) (hno : ¬ CRLF <:+: buff) :
    (match parse env r buff tr with
      | .ok out => out.buff = buff
      | .fault f => (f = .outOfRange ∧ r.state_ = .BODY)
          ∨ (f = .stackOverflow ∧ r.state_ ≠ .BODY ∧ env.regexLimit < buff.length))
    ∧ (r.state_ = .BODY →
        parse env r buff tr
          = match ParseBody_ env r buff tr with
            | .ok (r1, tr1) => .ok ⟨true, r1, buff, tr1⟩
            | .fault f => .fault f) := by
  rw [parse_without_CRLF env r buff tr hne hfin hno]
  constructor
  · cases hsw : parse.switch env r buff buff.length tr with
    | fault e => exact parse_switch_fault _ _ _ _ _ _ hsw
    | ok a => rfl
  · intro hst
    simp only [parse.switch, hst]
    cases ParseBody_ env r buff tr with
    | fault e => rfl
    | ok a => rfl

/-- C2 amended, at a request in state `BODY` and the window `x`. -/
theorem parse_window_kept_witness :
    (match parse env0 { Init with state_ := .BODY } "x".toList tr0 with
      | .ok out => out.buff = "x".toList
      | .fault f => (f = .outOfRange ∧ ({ Init with state_ := .BODY } : Request).state_ = .BODY)
          ∨ (f = .stackOverflow ∧ ({ Init with state_ := .BODY } : Request).state_ ≠ .BODY
              ∧ env0.regexLimit < "x".toList.length))
    ∧ (({ Init with state_ := .BODY } : Request).state_ = .BODY →
        parse env0 { Init with state_ := .BODY } "x".toList tr0
          = match ParseBody_ env0 { Init with state_ := .BODY } "x".toList tr0 with
            | .ok (r1, tr1) => .ok ⟨true, r1, "x".toList, tr1⟩
            | .fault f => .fault f) :=
  parse_window_kept env0 { Init with state_ := .BODY } "x".toList tr0 (by decide) (by decide)
    (fun h => by have := h.length_le; simp [CRLF] at this)
/-! ## The form decoder -/

theorem getD_mid (pre : Str) (c : Char) (rest : Str) (d : Char) :
    (pre ++ c :: rest).getD pre.length d = c := by
  induction pre with
  | nil => simp
  | cons a pre ih => simpa using ih

theorem set_mid (pre : Str) (c x : Char) (rest : Str) :
    (pre ++ c :: rest).set pre.length x = pre ++ x :: rest := by
  induction pre with
  | nil => simp
  | cons a pre ih => simp

theorem substr_mid (pre w rest : Str) : substr (pre ++ w ++ rest) pre.length w.length = w := by
  simp [substr]

theorem form_loop_done (n fuel : Nat) (st : FormScan) (h : n ≤ st.i) :
    ParseFromUrlencoded_.loop n fuel st = .ok st := by
  have : ¬ st.i < n := by omega
  cases fuel <;> simp [ParseFromUrlencoded_.loop, this]

theorem form_loop_step (n fuel : Nat) (st s : FormScan) (h : st.i < n)
    (hs : ParseFromUrlencoded_.switch n st = .ok s) :
    ParseFromUrlencoded_.loop n (fuel + 1) st
      = ParseFromUrlencoded_.loop n fuel { s with i := s.i + 1 } := by
  simp [ParseFromUrlencoded_.loop, h, hs]

theorem form_loop_run (n fuel : Nat) (w : Str) (hw : ∀ c ∈ w, c ≠ '=' ∧ c ≠ '%' ∧ c ≠ '&') :
    ∀ (pre rest : Str) (post : Dict) (key value : Str) (num : Int) (j : Nat),
      (pre ++ w ++ rest).length = n →
      ParseFromUrlencoded_.loop n (fuel + w.length)
          ⟨pre ++ w ++ rest, post, key, value, num, pre.length, j⟩
        = ParseFromUrlencoded_.loop n fuel
          ⟨pre ++ plusToSpace w ++ rest, post, key, value, num, pre.length + w.length, j⟩ := by
  induction w with
  | nil => intro pre rest post key value num j _; simp [plusToSpace]
  | cons c w ih =>
    intro pre rest post key value num j hn
    obtain ⟨h1, h2, h3⟩ := hw c (by simp)
    have hlt : pre.length < n := by
      rw [← hn]; simp only [List.length_append, List.length_cons]; omega
    have hbody : pre ++ c :: w ++ rest = pre ++ c :: (w ++ rest) := by simp
    have hfuel : fuel + (c :: w).length = (fuel + w.length) + 1 := by simp; omega
    have hn' : ∀ x : Char, ((pre ++ [x]) ++ w ++ rest).length = n := by
      intro x; rw [← hn]; simp
    have hih := fun x => ih (fun c hc => hw c (by simp [hc])) (pre ++ [x]) rest post key value num j
      (hn' x)
    rw [hfuel]
    by_cases hp : c = '+'
    · subst hp
      have hsw : ParseFromUrlencoded_.switch n
            ⟨pre ++ '+' :: w ++ rest, post, key, value, num, pre.length, j⟩
          = .ok ⟨pre ++ ' ' :: (w ++ rest), post, key, value, num, pre.length, j⟩ := by
        simp only [ParseFromUrlencoded_.switch, hbody, getD_mid, set_mid]
        simp
      rw [form_loop_step n _ _ _ hlt hsw]
      have := hih ' '
      simp only [List.append_assoc, List.singleton_append, List.length_append,
        List.length_singleton] at this
      simp only [List.append_assoc, List.cons_append] at this ⊢
      rw [this]
      have e1 : plusToSpace ('+' :: w) = ' ' :: plusToSpace w := by simp [plusToSpace]
      have e2 : pre.length + ('+' :: w).length = pre.length + 1 + w.length := by
        simp only [List.length_cons]; omega
      rw [e1, e2]
      rfl
    · have hsw : ParseFromUrlencoded_.switch n
            ⟨pre ++ c :: w ++ rest, post, key, value, num, pre.length, j⟩
          = .ok ⟨pre ++ c :: (w ++ rest), post, key, value, num, pre.length, j⟩ := by
        simp only [ParseFromUrlencoded_.switch, hbody, getD_mid]
        simp [h1, h2, h3, hp]
      rw [form_loop_step n _ _ _ hlt hsw]
      have := hih c
      simp only [List.append_assoc, List.singleton_append, List.length_append,
        List.length_singleton] at this
      simp only [List.append_assoc, List.cons_append] at this ⊢
      rw [this]
      have e1 : plusToSpace (c :: w) = c :: plusToSpace w := by simp [plusToSpace, hp]
      have e2 : pre.length + (c :: w).length = pre.length + 1 + w.length := by
        simp only [List.length_cons]; omega
      rw [e1, e2]
      rfl

theorem plusToSpace_id (w : Str) (h : ∀ c ∈ w, c ≠ '+') : plusToSpace w = w := by
  induction w with
  | nil => rfl
  | cons c w ih =>
    have hc : c ≠ '+' := h c (by simp)
    have := ih (fun x hx => h x (by simp [hx]))
    simp only [plusToSpace] at this
    simp [plusToSpace, hc, this]

theorem plusToSpace_length (w : Str) : (plusToSpace w).length = w.length := by
  simp [plusToSpace]

theorem form_loop_eq (n fuel : Nat) (pre rest : Str) (post : Dict) (key value : Str) (num : Int)
    (j : Nat) (hn : (pre ++ '=' :: rest).length = n) :
    ParseFromUrlencoded_.loop n (fuel + 1) ⟨pre ++ '=' :: rest, post, key, value, num, pre.length, j⟩
      = ParseFromUrlencoded_.loop n fuel
          ⟨pre ++ '=' :: rest, post, substr (pre ++ '=' :: rest) j (pre.length - j), value, num,
            pre.length + 1, pre.length + 1⟩ := by
  have hlt : pre.length < n := by
    rw [← hn]; simp only [List.length_append, List.length_cons]; omega
  have hsw : ParseFromUrlencoded_.switch n ⟨pre ++ '=' :: rest, post, key, value, num, pre.length, j⟩
      = .ok ⟨pre ++ '=' :: rest, post, substr (pre ++ '=' :: rest) j (pre.length - j), value, num,
          pre.length, pre.length + 1⟩ := by
    simp only [ParseFromUrlencoded_.switch, getD_mid]
    simp
  rw [form_loop_step n _ _ _ hlt hsw]

theorem form_loop_amp (n fuel : Nat) (pre rest : Str) (post : Dict) (key value : Str) (num : Int)
    (j : Nat) (hn : (pre ++ '&' :: rest).length = n) :
    ParseFromUrlencoded_.loop n (fuel + 1) ⟨pre ++ '&' :: rest, post, key, value, num, pre.length, j⟩
      = ParseFromUrlencoded_.loop n fuel
          ⟨pre ++ '&' :: rest, dictSet post key (substr (pre ++ '&' :: rest) j (pre.length - j)), key,
            substr (pre ++ '&' :: rest) j (pre.length - j), num, pre.length + 1, pre.length + 1⟩ := by
  have hlt : pre.length < n := by
    rw [← hn]; simp only [List.length_append, List.length_cons]; omega
  have hsw : ParseFromUrlencoded_.switch n ⟨pre ++ '&' :: rest, post, key, value, num, pre.length, j⟩
      = .ok ⟨pre ++ '&' :: rest, dictSet post key (substr (pre ++ '&' :: rest) j (pre.length - j)),
          key, substr (pre ++ '&' :: rest) j (pre.length - j), num, pre.length, pre.length + 1⟩ := by
    simp only [ParseFromUrlencoded_.switch, getD_mid]
    simp
  rw [form_loop_step n _ _ _ hlt hsw]

/-- The scan of `k=v` from the start of a segment: the key is `k`, the value segment
starts after the `=`, and the `+` of `v` are spaces. -/
theorem form_loop_keyvalue (n fuel : Nat) (pre k v rest : Str) (post : Dict) (key value : Str)
    (num : Int) (hk : ∀ c ∈ k, c ≠ '=' ∧ c ≠ '&' ∧ c ≠ '%' ∧ c ≠ '+')
    (hv : ∀ c ∈ v, c ≠ '=' ∧ c ≠ '&' ∧ c ≠ '%')
    (hn : (pre ++ (k ++ '=' :: v) ++ rest).length = n) :
    ParseFromUrlencoded_.loop n (fuel + (k.length + 1 + v.length))
        ⟨pre ++ (k ++ '=' :: v) ++ rest, post, key, value, num, pre.length, pre.length⟩
      = ParseFromUrlencoded_.loop n fuel
        ⟨(pre ++ k ++ ['=']) ++ plusToSpace v ++ rest, post, k, value, num,
          (pre ++ k ++ ['=']).length + v.length, (pre ++ k ++ ['=']).length⟩ := by
  have hk' : ∀ c ∈ k, c ≠ '=' ∧ c ≠ '%' ∧ c ≠ '&' := fun c hc =>
    ⟨(hk c hc).1, (hk c hc).2.2.1, (hk c hc).2.1⟩
  have hv' : ∀ c ∈ v, c ≠ '=' ∧ c ≠ '%' ∧ c ≠ '&' := fun c hc =>
    ⟨(hv c hc).1, (hv c hc).2.2, (hv c hc).2.1⟩
  have hkp : plusToSpace k = k := plusToSpace_id k (fun c hc => (hk c hc).2.2.2)
  have e0 : pre ++ (k ++ '=' :: v) ++ rest = pre ++ k ++ ('=' :: v ++ rest) := by simp
  have ef : fuel + (k.length + 1 + v.length) = (fuel + v.length + 1) + k.length := by omega
  rw [ef, e0, form_loop_run n _ k hk' pre _ post key value num pre.length (by rw [← e0]; exact hn),
    hkp]
  have e1 : pre ++ k ++ ('=' :: v ++ rest) = (pre ++ k) ++ '=' :: (v ++ rest) := by simp
  have e2 : pre.length + k.length = (pre ++ k).length := by simp
  rw [e1, e2, form_loop_eq n _ (pre ++ k) (v ++ rest) post key value num pre.length
    (by rw [← e1, ← e0]; exact hn)]
  have e3 : substr ((pre ++ k) ++ '=' :: (v ++ rest)) pre.length ((pre ++ k).length - pre.length)
      = k := by
    have : (pre ++ k).length - pre.length = k.length := by simp
    rw [this]
    have e : (pre ++ k) ++ '=' :: (v ++ rest) = pre ++ k ++ ('=' :: (v ++ rest)) := by simp
    rw [e, substr_mid]
  have e4 : (pre ++ k) ++ '=' :: (v ++ rest) = (pre ++ k ++ ['=']) ++ v ++ rest := by simp
  have e5 : (pre ++ k).length + 1 = (pre ++ k ++ ['=']).length := by simp [Nat.add_assoc]
  rw [e3, e4, e5, form_loop_run n _ v hv' (pre ++ k ++ ['=']) rest post k value num _
    (by rw [← e4, ← e1, ← e0]; exact hn)]

theorem form_loop_pairs (n : Nat) (init : List (Str × Str))
    (hk : ∀ kv ∈ init, ∀ c ∈ kv.1, c ≠ '=' ∧ c ≠ '&' ∧ c ≠ '%' ∧ c ≠ '+')
    (hv : ∀ kv ∈ init, ∀ c ∈ kv.2, c ≠ '=' ∧ c ≠ '&' ∧ c ≠ '%') :
    ∀ (pre rest : Str) (post : Dict) (key value : Str) (num : Int) (fuel : Nat),
      (pre ++ formPairs init ++ rest).length = n →
      ∃ (pre' key' value' : Str), pre'.length = pre.length + (formPairs init).length
        ∧ ParseFromUrlencoded_.loop n (fuel + (formPairs init).length)
            ⟨pre ++ formPairs init ++ rest, post, key, value, num, pre.length, pre.length⟩
          = ParseFromUrlencoded_.loop n fuel
            ⟨pre' ++ rest, init.foldl (fun d kv => dictSet d kv.1 (plusToSpace kv.2)) post,
              key', value', num, pre'.length, pre'.length⟩ := by
  induction init with
  | nil =>
    intro pre rest post key value num fuel _
    exact ⟨pre, key, value, by simp [formPairs], by simp [formPairs]⟩
  | cons kv init ih =>
    intro pre rest post key value num fuel hn
    have hk1 := hk kv (by simp)
    have hv1 := hv kv (by simp)
    have e0 : pre ++ formPairs (kv :: init) ++ rest
        = pre ++ (kv.1 ++ '=' :: kv.2) ++ ('&' :: (formPairs init ++ rest)) := by
      simp [formPairs]
    have ef : fuel + (formPairs (kv :: init)).length
        = ((fuel + (formPairs init).length) + 1) + (kv.1.length + 1 + kv.2.length) := by
      simp only [formPairs, List.length_append, List.length_cons]
      omega
    have h1 := form_loop_keyvalue n ((fuel + (formPairs init).length) + 1) pre kv.1 kv.2
      ('&' :: (formPairs init ++ rest)) post key value num hk1 hv1 (by rw [← e0]; exact hn)
    have e1 : (pre ++ kv.1 ++ ['=']) ++ plusToSpace kv.2 ++ ('&' :: (formPairs init ++ rest))
        = (pre ++ kv.1 ++ ['='] ++ plusToSpace kv.2) ++ '&' :: (formPairs init ++ rest) := by
      simp
    have e2 : (pre ++ kv.1 ++ ['=']).length + kv.2.length
        = (pre ++ kv.1 ++ ['='] ++ plusToSpace kv.2).length := by
      simp only [List.length_append, List.length_cons, List.length_nil, plusToSpace_length]
    have hn1 : ((pre ++ kv.1 ++ ['='] ++ plusToSpace kv.2) ++ '&' :: (formPairs init ++ rest)).length
        = n := by
      rw [← hn, e0]
      simp only [List.length_append, List.length_cons, List.length_nil, plusToSpace_length]
      omega
    have h2 := form_loop_amp n (fuel + (formPairs init).length)
      (pre ++ kv.1 ++ ['='] ++ plusToSpace kv.2) (formPairs init ++ rest) post kv.1 value num
      (pre ++ kv.1 ++ ['=']).length hn1
    have e3 : substr ((pre ++ kv.1 ++ ['='] ++ plusToSpace kv.2) ++ '&' :: (formPairs init ++ rest))
        (pre ++ kv.1 ++ ['=']).length
        ((pre ++ kv.1 ++ ['='] ++ plusToSpace kv.2).length - (pre ++ kv.1 ++ ['=']).length)
        = plusToSpace kv.2 := by
      have : (pre ++ kv.1 ++ ['='] ++ plusToSpace kv.2).length - (pre ++ kv.1 ++ ['=']).length
          = (plusToSpace kv.2).length := by
        simp only [List.length_append, List.length_cons, List.length_nil, plusToSpace_length]
        omega
      rw [this]
      exact substr_mid (pre ++ kv.1 ++ ['=']) (plusToSpace kv.2) ('&' :: (formPairs init ++ rest))
    have e4 : (pre ++ kv.1 ++ ['='] ++ plusToSpace kv.2) ++ '&' :: (formPairs init ++ rest)
        = (pre ++ kv.1 ++ ['='] ++ plusToSpace kv.2 ++ ['&']) ++ formPairs init ++ rest := by
      simp
    have e5 : (pre ++ kv.1 ++ ['='] ++ plusToSpace kv.2).length + 1
        = (pre ++ kv.1 ++ ['='] ++ plusToSpace kv.2 ++ ['&']).length := by
      simp only [List.length_append, List.length_cons, List.length_nil, plusToSpace_length]
    obtain ⟨pre', key', value', hlen, h3⟩ :=
      ih (fun kv' h => hk kv' (by simp [h])) (fun kv' h => hv kv' (by simp [h]))
        (pre ++ kv.1 ++ ['='] ++ plusToSpace kv.2 ++ ['&']) rest
        (dictSet post kv.1 (plusToSpace kv.2)) kv.1 (plusToSpace kv.2) num fuel
        (by rw [← e4]; exact hn1)
    refine ⟨pre', key', value', ?_, ?_⟩
    · rw [hlen]
      simp only [formPairs, List.length_append, List.length_cons, plusToSpace_length,
        List.length_nil]
      omega
    · rw [ef, e0, h1, e1, e2, h2, e3, e4, e5, h3]
      rfl

theorem dictFind_foldl_nodup (f : Str → Str) (kvs : List (Str × Str))
    (hnd : (kvs.map Prod.fst).Nodup) (d : Dict) (key : Str) :
    dictFind (kvs.foldl (fun d kv => dictSet d kv.1 (f kv.2)) d) key
      = match kvs.find? (fun kv => kv.1 = key) with
        | some kv => some (f kv.2)
        | none => dictFind d key := by
  induction kvs generalizing d with
  | nil => simp
  | cons kv rest ih =>
    simp only [List.map_cons, List.nodup_cons] at hnd
    rw [List.foldl_cons, ih hnd.2]
    by_cases hk : kv.1 = key
    · have hnone : rest.find? (fun kv => decide (kv.1 = key)) = none := by
        rw [List.find?_eq_none]
        intro x hx
        simp only [decide_eq_true_eq]
        intro hxk
        exact hnd.1 (List.mem_map.mpr ⟨x, hx, by rw [hxk, hk]⟩)
      simp [hnone, List.find?_cons, hk, dictFind_dictSet]
    · have hk' : ¬ key = kv.1 := fun e => hk e.symm
      simp only [List.find?_cons, hk, decide_False, dictFind_dictSet, hk', if_false]

/-- C7. For a non-empty list of pairs with pairwise distinct keys, keys without `=`,
`&`, `%`, `+`, values without `=`, `&`, `%`, and a non-empty last value, decoding the
body `k_1=v_1&...&k_n=v_n` from an empty field map returns, and the field map then
sends each `k_i` to `v_i` with every `+` replaced by a space and holds no other key;
the other members apart from the body are as before. -/
theorem ParseFromUrlencoded__pairs (r : Request) (init : List (Str × Str)) (last : Str × Str)
    (hnd : ((init ++ [last]).map Prod.fst).Nodup)
    (hk : ∀ kv ∈ init ++ [last], ∀ c ∈ kv.1, c ≠ '=' ∧ c ≠ '&' ∧ c ≠ '%' ∧ c ≠ '+')
    (hv : ∀ kv ∈ init ++ [last], ∀ c ∈ kv.2, c ≠ '=' ∧ c ≠ '&' ∧ c ≠ '%')
    (hlast : last.2 ≠ [])
    (hbody : r.body_ = formBody init last) (hpost : r.post_ = []) :
    ∃ (body : Str) (post : Dict),
      ParseFromUrlencoded_ r = .ok { r with body_ := body, post_ := post }
      ∧ ∀ key, dictFind post key
          = ((init ++ [last]).find? (fun kv => kv.1 = key)).map (fun kv => plusToSpace kv.2) := by
  obtain ⟨k, v⟩ := last
  simp only at hlast
  have hvlen : 0 < v.length := List.length_pos.mpr hlast
  have hki : ∀ kv ∈ init, ∀ c ∈ kv.1, c ≠ '=' ∧ c ≠ '&' ∧ c ≠ '%' ∧ c ≠ '+' :=
    fun kv h => hk kv (by simp [h])
  have hvi : ∀ kv ∈ init, ∀ c ∈ kv.2, c ≠ '=' ∧ c ≠ '&' ∧ c ≠ '%' :=
    fun kv h => hv kv (by simp [h])
  have hkl := hk (k, v) (by simp)
  have hvl := hv (k, v) (by simp)
  have hb0 : formBody init (k, v) = [] ++ formPairs init ++ (k ++ '=' :: v) := by
    simp [formBody]
  have hn : (formBody init (k, v)).length = 0 + (k.length + 1 + v.length) + (formPairs init).length := by
    simp only [formBody, List.length_append, List.length_cons]
    omega
  obtain ⟨pre', key', value', hlen, h1⟩ := form_loop_pairs (formBody init (k, v)).length init hki hvi
    [] (k ++ '=' :: v) [] [] [] 0 (0 + (k.length + 1 + v.length)) (by rw [← hb0])
  have hn2 : (pre' ++ (k ++ '=' :: v) ++ []).length = (formBody init (k, v)).length := by
    simp only [formBody, List.length_append, List.length_cons, hlen, List.length_nil]
    omega
  have h2 := form_loop_keyvalue (formBody init (k, v)).length 0 pre' k v []
    (init.foldl (fun d kv => dictSet d kv.1 (plusToSpace kv.2)) []) key' value' 0 hkl hvl hn2
  have hi : (pre' ++ k ++ ['=']).length + v.length = (formBody init (k, v)).length := by
    rw [← hn2]
    simp only [List.length_append, List.length_cons, List.length_nil]
    omega
  have h3 := form_loop_done (formBody init (k, v)).length 0
    ⟨(pre' ++ k ++ ['=']) ++ plusToSpace v ++ [],
      init.foldl (fun d kv => dictSet d kv.1 (plusToSpace kv.2)) [], k, value', 0,
      (pre' ++ k ++ ['=']).length + v.length, (pre' ++ k ++ ['=']).length⟩ (by simp only; omega)
  have hloop : ParseFromUrlencoded_.loop (formBody init (k, v)).length (formBody init (k, v)).length
      ⟨formBody init (k, v), [], [], [], 0, 0, 0⟩
      = .ok ⟨(pre' ++ k ++ ['=']) ++ plusToSpace v ++ [],
          init.foldl (fun d kv => dictSet d kv.1 (plusToSpace kv.2)) [], k, value', 0,
          (pre' ++ k ++ ['=']).length + v.length, (pre' ++ k ++ ['=']).length⟩ := by
    have hf : ∀ a b : Nat, a = b →
        ParseFromUrlencoded_.loop (formBody init (k, v)).length a
            ⟨formBody init (k, v), [], [], [], 0, 0, 0⟩
          = ParseFromUrlencoded_.loop (formBody init (k, v)).length b
            ⟨[] ++ formPairs init ++ (k ++ '=' :: v), [], [], [], 0, ([] : Str).length,
              ([] : Str).length⟩ := by
      intro a b hab
      rw [hab]
      rfl
    have e : pre' ++ (k ++ '=' :: v) ++ [] = pre' ++ (k ++ '=' :: v) := by simp
    rw [e] at h2
    rw [hf _ _ hn, h1, h2, h3]
  have hnd' : (init.map Prod.fst).Nodup ∧ k ∉ init.map Prod.fst := by
    rw [List.map_append, List.nodup_append] at hnd
    refine ⟨hnd.1, fun hin => ?_⟩
    exact hnd.2.2 hin (by simp)
  have hcount : dictCount (init.foldl (fun d kv => dictSet d kv.1 (plusToSpace kv.2)) []) k = 0 := by
    have hnone : init.find? (fun kv => decide (kv.1 = k)) = none := by
      rw [List.find?_eq_none]
      intro x hx
      simp only [decide_eq_true_eq]
      intro hxk
      exact hnd'.2 (List.mem_map.mpr ⟨x, hx, hxk⟩)
    simp [dictCount, dictFind_foldl_nodup plusToSpace init hnd'.1 [] k, hnone, dictFind]
  have hne : ¬ (formBody init (k, v)).length = 0 := by omega
  have hsub : substr ((pre' ++ k ++ ['=']) ++ plusToSpace v ++ []) (pre' ++ k ++ ['=']).length
      ((pre' ++ k ++ ['=']).length + v.length - (pre' ++ k ++ ['=']).length) = plusToSpace v := by
    have : (pre' ++ k ++ ['=']).length + v.length - (pre' ++ k ++ ['=']).length
        = (plusToSpace v).length := by
      rw [plusToSpace_length]; omega
    rw [this]
    exact substr_mid _ _ _
  refine ⟨(pre' ++ k ++ ['=']) ++ plusToSpace v ++ [],
    (init ++ [(k, v)]).foldl (fun d kv => dictSet d kv.1 (plusToSpace kv.2)) [], ?_, ?_⟩
  · simp only [ParseFromUrlencoded_, hbody, hpost, hne, if_false, hloop]
    have hji : (pre' ++ k ++ ['=']).length ≤ (pre' ++ k ++ ['=']).length + v.length := by omega
    have hjl : (pre' ++ k ++ ['=']).length < (pre' ++ k ++ ['=']).length + v.length := by omega
    rw [if_pos hji, if_pos ⟨hcount, hjl⟩, hsub, List.foldl_append]
    rfl
  · intro key
    rw [dictFind_foldl_nodup plusToSpace (init ++ [(k, v)]) hnd [] key]
    cases (init ++ [(k, v)]).find? (fun kv => decide (kv.1 = key)) <;> simp [dictFind]

/-- C7, at the bodies `a=1&b=2` and `q=a+b`. -/
theorem ParseFromUrlencoded__pairs_witness :
    (formBody [("a".toList, "1".toList)] ("b".toList, "2".toList) = "a=1&b=2".toList
      ∧ ParseFromUrlencoded_ { Init with body_ := "a=1&b=2".toList }
          = .ok { Init with body_ := "a=1&b=2".toList,
                            post_ := [("a".toList, "1".toList), ("b".toList, "2".toList)] }
      ∧ ∃ (body : Str) (post : Dict),
        ParseFromUrlencoded_ { Init with body_ := "a=1&b=2".toList }
          = .ok { ({ Init with body_ := "a=1&b=2".toList } : Request) with
                  body_ := body, post_ := post }
        ∧ ∀ key, dictFind post key
            = (([("a".toList, "1".toList)] ++ [("b".toList, "2".toList)]).find?
                (fun kv : Str × Str => kv.1 = key)).map (fun kv : Str × Str => plusToSpace kv.2))
    ∧ (formBody [] ("q".toList, "a+b".toList) = "q=a+b".toList
      ∧ ParseFromUrlencoded_ { Init with body_ := "q=a+b".toList }
          = .ok { Init with body_ := "q=a b".toList, post_ := [("q".toList, "a b".toList)] }
      ∧ ∃ (body : Str) (post : Dict),
        ParseFromUrlencoded_ { Init with body_ := "q=a+b".toList }
          = .ok { ({ Init with body_ := "q=a+b".toList } : Request) with
                  body_ := body, post_ := post }
        ∧ ∀ key, dictFind post key
            = (([] ++ [("q".toList, "a+b".toList)]).find?
                (fun kv : Str × Str => kv.1 = key)).map (fun kv : Str × Str => plusToSpace kv.2)) :=
  ⟨⟨by decide, by decide,
      ParseFromUrlencoded__pairs { Init with body_ := "a=1&b=2".toList }
        [("a".toList, "1".toList)] ("b".toList, "2".toList) (by decide) (by decide) (by decide)
        (by decide) (by decide) (by decide)⟩,
    ⟨by decide, by decide,
      ParseFromUrlencoded__pairs { Init with body_ := "q=a+b".toList }
        [] ("q".toList, "a+b".toList) (by decide) (by decide) (by decide)
        (by decide) (by decide) (by decide)⟩⟩

/-- C8, the code at `q=%41`: `ConverHex` returns the character code of a decimal digit
(52 for `4`, 49 for `1`) and not its value, and the decoder writes the decimal digits of
`52 * 16 + 49 = 881` over the escape, the byte `88 + 48 = 136` and the digit `1`,
keeping the `%`: the field `q` is three bytes long and is not `A`. On the letters
`a`-`f` and `A`-`F` the function `ConverHex` is right. -/
theorem ParseFromUrlencoded__percent41 :
    ConverHex '4' = 52 ∧ ConverHex '1' = 49
    ∧ ParseFromUrlencoded_ { Init with body_ := "q=%41".toList }
        = .ok { Init with body_ := ['q', '=', '%', Char.ofNat 136, '1'],
                          post_ := [("q".toList, ['%', Char.ofNat 136, '1'])] }
    ∧ (['%', Char.ofNat 136, '1'] : Str) ≠ "A".toList
    ∧ ("abcdef".toList.map ConverHex = [10, 11, 12, 13, 14, 15]
      ∧ "ABCDEF".toList.map ConverHex = [10, 11, 12, 13, 14, 15]) := by
  decide

/-- C9, the code at `a=1&a=2&`: the second pair, ended by `&`, overwrites the first one,
`formFields["a"] = "2"`; only the pair ended by the end of the input is guarded, so
`a=1&a=2` leaves `formFields["a"] = "1"`. -/
theorem ParseFromUrlencoded__overwrites :
    ParseFromUrlencoded_ { Init with body_ := "a=1&a=2&".toList }
      = .ok { Init with body_ := "a=1&a=2&".toList, post_ := [("a".toList, "2".toList)] }
    ∧ ParseFromUrlencoded_ { Init with body_ := "a=1&a=2".toList }
      = .ok { Init with body_ := "a=1&a=2".toList, post_ := [("a".toList, "1".toList)] } := by
  decide

/-! ## Searching -/

theorem findAux_hit (pat s : Str) (idx : Nat) (h : pat <+: s) : findAux pat s idx = some idx := by
  have hp : pat.isPrefixOf s = true := List.isPrefixOf_iff_prefix.mpr h
  cases s with
  | nil => simp only [findAux, hp, if_true]
  | cons c t => simp only [findAux, hp, if_true]

theorem isPrefixOf_clash (t pat rest : Str) (h : clash t pat = true) :
    pat.isPrefixOf (t ++ rest) = false := by
  induction t generalizing pat with
  | nil => simp [clash] at h
  | cons a t ih =>
    cases pat with
    | nil => simp [clash] at h
    | cons p ps =>
      simp only [clash, Bool.or_eq_true, bne_iff_ne, ne_eq] at h
      by_cases hap : a = p
      · subst hap
        have h2 : clash t ps = true := by
          rcases h with h | h
          · exact absurd rfl h
          · exact h
        simp [List.isPrefixOf, ih ps h2]
      · have : ¬ p = a := fun e => hap e.symm
        simp [List.isPrefixOf, this]

theorem findAux_clashAll (pat A B : Str) (idx : Nat) (h : clashAll pat A = true) :
    findAux pat (A ++ B) idx = findAux pat B (idx + A.length) := by
  induction A generalizing idx with
  | nil => simp
  | cons a A ih =>
    simp only [clashAll, Bool.and_eq_true] at h
    have hp : pat.isPrefixOf (a :: (A ++ B)) = false := isPrefixOf_clash (a :: A) pat B h.1
    have hp' : ¬ pat.isPrefixOf (a :: (A ++ B)) = true := by rw [hp]; simp
    rw [List.cons_append, findAux, if_neg hp', ih (idx + 1) h.2, List.length_cons,
      (by omega : idx + 1 + A.length = idx + (A.length + 1))]

/-- A text `A` that holds no `pat`, then a character that `pat` does not hold: no
occurrence of `pat` starts before the rest. -/
theorem findAux_skip (pat A B : Str) (x : Char) (idx : Nat) (hne : pat ≠ []) (hx : x ∉ pat)
    (hA : ¬ pat <:+: A) :
    findAux pat (A ++ x :: B) idx = findAux pat B (idx + A.length + 1) := by
  induction A generalizing idx with
  | nil =>
    have hp : pat.isPrefixOf (x :: B) = false := by
      cases pat with
      | nil => exact absurd rfl hne
      | cons p ps =>
        have : ¬ p = x := fun e => hx (by simp [e])
        simp [List.isPrefixOf, this]
    simp [findAux, hp]
  | cons a A ih =>
    have hp : pat.isPrefixOf (a :: A ++ x :: B) = false := by
      cases hb : pat.isPrefixOf (a :: A ++ x :: B) with
      | false => rfl
      | true =>
        exfalso
        have hpre : pat <+: (a :: A) ++ x :: B := List.isPrefixOf_iff_prefix.mp hb
        by_cases hlen : pat.length ≤ (a :: A).length
        · exact hA (List.prefix_of_prefix_length_le hpre (List.prefix_append _ _) hlen).isInfix
        · have h2 : (a :: A) ++ [x] <+: (a :: A) ++ x :: B := by
            have : (a :: A) ++ x :: B = ((a :: A) ++ [x]) ++ B := by simp
            rw [this]
            exact List.prefix_append _ _
          have h3 : (a :: A) ++ [x] <+: pat :=
            List.prefix_of_prefix_length_le h2 hpre (by simp at hlen ⊢; omega)
          exact hx (h3.subset (by simp))
    have hA' : ¬ pat <:+: A := fun hin => hA (hin.trans (List.suffix_cons a A).isInfix)
    have := ih (idx + 1) hA'
    simp only [List.cons_append] at hp
    have hp' : ¬ pat.isPrefixOf (a :: (A ++ x :: B)) = true := by rw [hp]; simp
    rw [List.cons_append, findAux, if_neg hp', this, List.length_cons,
      (by omega : idx + 1 + A.length + 1 = idx + (A.length + 1) + 1)]

/-- A text `A` without the character `x`, then `x`: no occurrence of `q x` starts before
the rest, unless `A` ends with `q`. -/
theorem findAux_skip_last (q A B : Str) (x : Char) (idx : Nat) (hq : x ∉ q) (hA : x ∉ A)
    (hs : ¬ q <:+ A) :
    findAux (q ++ [x]) (A ++ x :: B) idx = findAux (q ++ [x]) B (idx + A.length + 1) := by
  induction A generalizing idx with
  | nil =>
    have hq' : q ≠ [] := fun e => hs (by rw [e])
    have hp : (q ++ [x]).isPrefixOf (x :: B) = false := by
      cases q with
      | nil => exact absurd rfl hq'
      | cons p ps =>
        have : ¬ p = x := fun e => hq (by simp [e])
        simp [List.isPrefixOf, this]
    simp [findAux, hp]
  | cons a A ih =>
    have hp : (q ++ [x]).isPrefixOf (a :: A ++ x :: B) = false := by
      cases hb : (q ++ [x]).isPrefixOf (a :: A ++ x :: B) with
      | false => rfl
      | true =>
        exfalso
        have hpre : q ++ [x] <+: ((a :: A) ++ [x]) ++ B := by
          have := List.isPrefixOf_iff_prefix.mp hb
          simp only [List.append_assoc, List.singleton_append]
          exact this
        have hAx : (a :: A) ++ [x] <+: ((a :: A) ++ [x]) ++ B := List.prefix_append _ _
        rcases Nat.lt_trichotomy (q.length) ((a :: A).length) with hlt | heq | hgt
        · have h3 : q ++ [x] <+: (a :: A) :=
            List.prefix_of_prefix_length_le hpre
              (by simp) (by simp at hlt ⊢; omega)
          exact hA (h3.subset (by simp))
        · have h3 : q ++ [x] <+: (a :: A) ++ [x] :=
            List.prefix_of_prefix_length_le hpre hAx (by simp at heq ⊢; omega)
          have h4 : q ++ [x] = (a :: A) ++ [x] :=
            h3.eq_of_length (by simp at heq ⊢; omega)
          have h5 : q = a :: A := List.append_cancel_right h4
          exact hs (by rw [h5])
        · have h3 : (a :: A) ++ [x] <+: q :=
            List.prefix_of_prefix_length_le hAx
              (by
                have : q <+: q ++ [x] := List.prefix_append _ _
                exact this.trans hpre)
              (by simp at hgt ⊢; omega)
          exact hq (h3.subset (by simp))
    have hA' : x ∉ A := fun hin => hA (by simp [hin])
    have hs' : ¬ q <:+ A := fun hin => hs (hin.trans (List.suffix_cons a A))
    have := ih (idx + 1) hA' hs'
    simp only [List.cons_append] at hp
    have hp' : ¬ (q ++ [x]).isPrefixOf (a :: (A ++ x :: B)) = true := by rw [hp]; simp
    rw [List.cons_append, findAux, if_neg hp', this, List.length_cons,
      (by omega : idx + 1 + A.length + 1 = idx + (A.length + 1) + 1)]

theorem findAux_char (A B : Str) (x : Char) (idx : Nat) (hA : x ∉ A) :
    findAux [x] (A ++ x :: B) idx = some (idx + A.length) := by
  induction A generalizing idx with
  | nil => simp [findAux, List.isPrefixOf]
  | cons a A ih =>
    have ha : ¬ x = a := fun e => hA (by simp [e])
    have hA' : x ∉ A := fun hin => hA (by simp [hin])
    simp [findAux, List.isPrefixOf, ha, ih (idx + 1) hA']
    omega

theorem find_append (U V pat : Str) : find (U ++ V) pat U.length = findAux pat V U.length := by
  simp [find]

theorem rfindAux_short (pat s : Str) (idx : Nat) (h : s.length < pat.length) :
    rfindAux pat s idx = none := by
  induction s generalizing idx with
  | nil =>
    cases pat with
    | nil => simp at h
    | cons p ps => simp [rfindAux, List.isPrefixOf]
  | cons c t ih =>
    have hp : pat.isPrefixOf (c :: t) = false := by
      cases hb : pat.isPrefixOf (c :: t) with
      | false => rfl
      | true =>
        have := (List.isPrefixOf_iff_prefix.mp hb).length_le
        omega
    have ht : t.length < pat.length := by simp at h; omega
    simp [rfindAux, ih (idx + 1) ht, hp]

theorem rfindAux_append (pat X : Str) (idx : Nat) (hne : pat ≠ []) :
    rfindAux pat (X ++ pat) idx = some (idx + X.length) := by
  induction X generalizing idx with
  | nil =>
    cases pat with
    | nil => exact absurd rfl hne
    | cons p ps =>
      have h1 : rfindAux (p :: ps) ps (idx + 1) = none := rfindAux_short _ _ _ (by simp)
      have h2 : (p :: ps).isPrefixOf (p :: ps) = true :=
        List.isPrefixOf_iff_prefix.mpr (List.prefix_refl _)
      simp only [List.nil_append, rfindAux, h1, h2, if_true, List.length_nil, Nat.add_zero]
  | cons x X ih =>
    rw [List.cons_append, rfindAux, ih (idx + 1), List.length_cons,
      (by omega : idx + 1 + X.length = idx + (X.length + 1))]

/-! ## Multipart extraction -/

theorem find_zero (s pat : Str) : find s pat 0 = findAux pat s 0 := by
  simp [find]

theorem findAux_skip_one (pat B : Str) (x : Char) (idx : Nat) (hne : pat ≠ []) (hx : x ∉ pat) :
    findAux pat (x :: B) idx = findAux pat B (idx + 1) := by
  have hnil : ¬ pat <:+: [] := fun h => hne (List.eq_nil_of_infix_nil h)
  have := findAux_skip pat [] B x idx hne hx hnil
  simpa using this

theorem boundary_of_contentType (b : Str) :
    find ("multipart/form-data; boundary=".toList ++ b) "boundary=".toList 0 = some 21
    ∧ ("multipart/form-data; boundary=".toList ++ b).drop (21 + 9) = b := by
  refine ⟨?_, rfl⟩
  have e : "multipart/form-data; boundary=".toList ++ b
      = "multipart/form-data; ".toList ++ ("boundary=".toList ++ b) := rfl
  rw [find_zero, e, findAux_clashAll _ _ _ _ (by decide),
    findAux_hit _ _ _ (List.prefix_append _ _)]
  rfl

theorem part_of_multipartBody (r : Request) (b F f d : Str)
    (hb : ∀ c ∈ b, c ≠ '"' ∧ c ≠ '\r' ∧ c ≠ '\n')
    (hMH : ¬ ("--".toList ++ b) <:+: dispositionLine F f)
    (hMd : ¬ ("--".toList ++ b) <:+: d)
    (hct : dictFind r.header_ "Content-Type".toList
      = some ("multipart/form-data; boundary=".toList ++ b))
    (hbody : r.body_ = multipartBody b F f d) :
    SaveUploadFile.part r
      = some (dispositionLine F f ++ '\r' :: '\n' :: '\r' :: '\n' :: (d ++ ['\r', '\n'])) := by
  have hcr : '\r' ∉ "--".toList ++ b := by
    intro hin
    simp only [List.mem_append] at hin
    rcases hin with h | h
    · exact absurd h (by decide)
    · exact (hb _ h).2.1 rfl
  have hlf : '\n' ∉ "--".toList ++ b := by
    intro hin
    simp only [List.mem_append] at hin
    rcases hin with h | h
    · exact absurd h (by decide)
    · exact (hb _ h).2.2 rfl
  have hne : "--".toList ++ b ≠ [] := by
    intro h
    have := congrArg List.length h
    simp at this
  have e1 : multipartBody b F f d
      = ("--".toList ++ b) ++ ('\r' :: '\n' :: (dispositionLine F f ++ '\r' :: '\n' :: '\r' :: '\n'
          :: (d ++ '\r' :: '\n' :: (("--".toList ++ b) ++ "--".toList)))) := by
    simp [multipartBody, CRLF]
  have e2 : multipartBody b F f d
      = (("--".toList ++ b) ++ ['\r', '\n']) ++ (dispositionLine F f ++ '\r' :: '\n' :: '\r' :: '\n'
          :: (d ++ '\r' :: '\n' :: (("--".toList ++ b) ++ "--".toList))) := by
    rw [e1]; simp
  have h4 : find (multipartBody b F f d) ("--".toList ++ b) 0 = some 0 := by
    rw [find_zero, e1, findAux_hit _ _ _ (List.prefix_append _ _)]
  have hpos : 0 + (("--".toList ++ b).length + 2) = (("--".toList ++ b) ++ ['\r', '\n']).length := by
    simp
  have h5 : find (multipartBody b F f d) ("--".toList ++ b)
      (("--".toList ++ b) ++ ['\r', '\n']).length
      = some ((("--".toList ++ b) ++ ['\r', '\n']).length
          + (dispositionLine F f ++ '\r' :: '\n' :: '\r' :: '\n' :: (d ++ ['\r', '\n'])).length) := by
    conv => lhs; rw [e2]
    rw [find_append,
      findAux_skip _ (dispositionLine F f) _ '\r' _ hne hcr hMH,
      findAux_skip_one _ _ '\n' _ hne hlf,
      findAux_skip_one _ _ '\r' _ hne hcr,
      findAux_skip_one _ _ '\n' _ hne hlf,
      findAux_skip _ d _ '\r' _ hne hcr hMd,
      findAux_skip_one _ _ '\n' _ hne hlf,
      findAux_hit _ _ _ (List.prefix_append _ _)]
    congr 1
    simp only [List.length_append, List.length_cons, List.length_nil]
    omega
  have h6 : substr (multipartBody b F f d) (("--".toList ++ b) ++ ['\r', '\n']).length
      (dispositionLine F f ++ '\r' :: '\n' :: '\r' :: '\n' :: (d ++ ['\r', '\n'])).length
      = dispositionLine F f ++ '\r' :: '\n' :: '\r' :: '\n' :: (d ++ ['\r', '\n']) := by
    have e3 : multipartBody b F f d
        = (("--".toList ++ b) ++ ['\r', '\n'])
          ++ (dispositionLine F f ++ '\r' :: '\n' :: '\r' :: '\n' :: (d ++ ['\r', '\n']))
          ++ (("--".toList ++ b) ++ "--".toList) := by
      rw [e1]; simp
    rw [e3]
    exact substr_mid _ _ _
  simp only [SaveUploadFile.part, hct, (boundary_of_contentType b).1, (boundary_of_contentType b).2,
    hbody, h4, hpos, h5, Nat.add_sub_cancel_left, h6]

theorem valid_of_suffix (f : Str) (exts : List Str) (h : ∃ ext ∈ exts, ext <:+ f) :
    SaveUploadFile.valid f exts = true := by
  induction exts with
  | nil => obtain ⟨ext, hin, _⟩ := h; simp at hin
  | cons e rest ih =>
    by_cases he : e <:+ f
    · have hlen : f.length ≥ e.length := he.length_le
      have hdrop : f.drop (f.length - e.length) = e := by
        obtain ⟨t, ht⟩ := he
        subst ht
        simp
      simp [SaveUploadFile.valid, hlen, hdrop]
    · obtain ⟨ext, hin, hsuf⟩ := h
      have hrest : ∃ ext ∈ rest, ext <:+ f := by
        simp only [List.mem_cons] at hin
        rcases hin with h1 | h1
        · subst h1; exact absurd hsuf he
        · exact ⟨ext, h1, hsuf⟩
      have hnot : ¬ (f.length ≥ e.length ∧ f.drop (f.length - e.length) = e) := by
        rintro ⟨_, h2⟩
        have h3 := List.take_append_drop (f.length - e.length) f
        rw [h2] at h3
        exact he ⟨f.take (f.length - e.length), h3⟩
      simp only [SaveUploadFile.valid, hnot, if_false, ih hrest]

theorem file_of_part (F f d : Str) (exts : List Str)
    (hF : ∀ c ∈ F, c ≠ '"' ∧ c ≠ '\r' ∧ c ≠ '\n')
    (hf : ∀ c ∈ f, c ≠ '"' ∧ c ≠ '\r' ∧ c ≠ '\n')
    (hext : ∃ ext ∈ exts, ext <:+ f)
    (hd : d ≠ [])
    (hFn : ¬ "filename=".toList <:+ F) :
    SaveUploadFile.file
        (dispositionLine F f ++ '\r' :: '\n' :: '\r' :: '\n' :: (d ++ ['\r', '\n'])) F exts
      = some (f, d) := by
  have hFq : '"' ∉ F := fun h => (hF _ h).1 rfl
  have hfq : '"' ∉ f := fun h => (hf _ h).1 rfl
  -- the part, nested to the right
  have eP : dispositionLine F f ++ '\r' :: '\n' :: '\r' :: '\n' :: (d ++ ['\r', '\n'])
      = "Content-Disposition: form-data; name=\"".toList
        ++ (F ++ '"' :: (';' :: ' ' :: ("filename=\"".toList
          ++ (f ++ '"' :: ("\r\n\r\n".toList ++ (d ++ "\r\n".toList)))))) := by
    simp [dispositionLine]
  rw [eP]
  generalize hP : "Content-Disposition: form-data; name=\"".toList
        ++ (F ++ '"' :: (';' :: ' ' :: ("filename=\"".toList
          ++ (f ++ '"' :: ("\r\n\r\n".toList ++ (d ++ "\r\n".toList)))))) = P
  have h7 : find P "Content-Disposition:".toList 0 = some 0 := by
    rw [find_zero, ← hP]
    exact findAux_hit _ _ _ ((by decide : "Content-Disposition:".toList
      <+: "Content-Disposition: form-data; name=\"".toList).trans (List.prefix_append _ _))
  have h8 : find P "name=\"".toList 0 = some 32 := by
    have e : P = "Content-Disposition: form-data; ".toList ++ ("name=\"".toList
          ++ (F ++ '"' :: (';' :: ' ' :: ("filename=\"".toList
            ++ (f ++ '"' :: ("\r\n\r\n".toList ++ (d ++ "\r\n".toList))))))) := by
      rw [← hP]; rfl
    rw [find_zero, e, findAux_clashAll _ _ _ _ (by decide),
      findAux_hit _ _ _ (List.prefix_append _ _)]
    rfl
  have h9 : find P "\"".toList (32 + 6) = some (38 + F.length) := by
    rw [← hP]
    exact (find_append "Content-Disposition: form-data; name=\"".toList _ _).trans
      (findAux_char F _ '"' 38 hFq)
  have h10 : substrTo P (32 + 6) (some (38 + F.length)) = F := by
    rw [← hP]
    have : 38 + F.length - (32 + 6) = F.length := by omega
    simp only [substrTo, this]
    have e : "Content-Disposition: form-data; name=\"".toList
        ++ (F ++ '"' :: (';' :: ' ' :: ("filename=\"".toList
          ++ (f ++ '"' :: ("\r\n\r\n".toList ++ (d ++ "\r\n".toList))))))
        = "Content-Disposition: form-data; name=\"".toList ++ F
          ++ ('"' :: (';' :: ' ' :: ("filename=\"".toList
          ++ (f ++ '"' :: ("\r\n\r\n".toList ++ (d ++ "\r\n".toList)))))) := by simp
    rw [e]
    exact substr_mid "Content-Disposition: form-data; name=\"".toList F _
  have h11 : find P "filename=\"".toList 0 = some (38 + F.length + 1 + 2) := by
    rw [find_zero, ← hP, findAux_clashAll _ _ _ _ (by decide)]
    have e : "filename=\"".toList = "filename=".toList ++ ['"'] := rfl
    rw [e, findAux_skip_last _ F _ '"' _ (by decide) hFq hFn]
    have e2 : ∀ R : Str, ';' :: ' ' :: (("filename=".toList ++ ['"']) ++ R)
        = [';', ' '] ++ (("filename=".toList ++ ['"']) ++ R) := fun _ => rfl
    rw [e2, findAux_clashAll _ _ _ _ (by decide), findAux_hit _ _ _ (List.prefix_append _ _)]
    rfl
  -- the text before the file name
  generalize hU : "Content-Disposition: form-data; name=\"".toList
      ++ (F ++ '"' :: (';' :: ' ' :: "filename=\"".toList)) = U
  have hUlen : U.length = 38 + F.length + 1 + 2 + 10 := by
    rw [← hU]
    simp only [List.length_append, List.length_cons]
    have h1 : "Content-Disposition: form-data; name=\"".toList.length = 38 := by decide
    have h2 : "filename=\"".toList.length = 10 := by decide
    omega
  have ePU : P = U ++ (f ++ '"' :: ("\r\n\r\n".toList ++ (d ++ "\r\n".toList))) := by
    rw [← hP, ← hU]; simp
  have h12 : find P "\"".toList (38 + F.length + 1 + 2 + 10)
      = some (38 + F.length + 1 + 2 + 10 + f.length) := by
    rw [← hUlen, ePU]
    exact (find_append U _ _).trans (findAux_char f _ '"' _ hfq)
  have h13 : substrTo P (38 + F.length + 1 + 2 + 10)
      (some (38 + F.length + 1 + 2 + 10 + f.length)) = f := by
    have : 38 + F.length + 1 + 2 + 10 + f.length - (38 + F.length + 1 + 2 + 10) = f.length := by
      omega
    simp only [substrTo, this]
    rw [← hUlen, ePU, ← List.append_assoc]
    exact substr_mid U f _
  have h14 : SaveUploadFile.valid f exts = true := valid_of_suffix f exts hext
  have ePf : P = (U ++ f) ++ ('"' :: ("\r\n\r\n".toList ++ (d ++ "\r\n".toList))) := by
    rw [ePU]; simp
  have hUf : (U ++ f).length = 38 + F.length + 1 + 2 + 10 + f.length := by
    rw [List.length_append, hUlen]
  have h15 : find P "\r\n\r\n".toList (38 + F.length + 1 + 2 + 10 + f.length)
      = some (38 + F.length + 1 + 2 + 10 + f.length + 1) := by
    rw [← hUf, ePf, find_append]
    have e : '"' :: ("\r\n\r\n".toList ++ (d ++ "\r\n".toList))
        = ['"'] ++ ("\r\n\r\n".toList ++ (d ++ "\r\n".toList)) := rfl
    rw [e, findAux_clashAll _ _ _ _ (by decide), findAux_hit _ _ _ (List.prefix_append _ _)]
    rfl
  have ePd : P = ((U ++ f) ++ ('"' :: "\r\n\r\n".toList)) ++ d ++ "\r\n".toList := by
    rw [ePU]; simp
  have hUd : ((U ++ f) ++ ('"' :: "\r\n\r\n".toList)).length
      = 38 + F.length + 1 + 2 + 10 + f.length + 1 + 4 := by
    rw [List.length_append, hUf]
    rfl
  have h16 : rfind P "\r\n".toList
      = some (38 + F.length + 1 + 2 + 10 + f.length + 1 + 4 + d.length) := by
    rw [rfind, ePd, rfindAux_append _ _ _ (by decide), List.length_append, hUd]
    simp
  have hdlen : 0 < d.length := List.length_pos.mpr hd
  have h17 : ¬ 38 + F.length + 1 + 2 + 10 + f.length + 1 + 4 + d.length
      ≤ 38 + F.length + 1 + 2 + 10 + f.length + 1 + 4 := by omega
  have h18 : substr P (38 + F.length + 1 + 2 + 10 + f.length + 1 + 4)
      (38 + F.length + 1 + 2 + 10 + f.length + 1 + 4 + d.length
        - (38 + F.length + 1 + 2 + 10 + f.length + 1 + 4)) = d := by
    have : 38 + F.length + 1 + 2 + 10 + f.length + 1 + 4 + d.length
        - (38 + F.length + 1 + 2 + 10 + f.length + 1 + 4) = d.length := by omega
    rw [this, ← hUd, ePd]
    exact substr_mid _ d _
  simp only [SaveUploadFile.file, h7, h8, h9, h10, h11, h12, h13, h14, h15, h16, h17, h18]
  simp

set_option maxRecDepth 100000 in
/-- C10, refuted as stated: the field name `filename=` has no quote, CR or LF, the file
name `a.jpg` ends in `.jpg`, the payload `DATA` is not empty and the marker `------X`
occurs neither in the disposition line nor in the payload; the search for `filename="`
stops at the end of `name="filename="`, the file name read is `; filename=`, and the
extraction fails on the extension. -/
theorem extract_field_named_filename :
    (∀ c ∈ "----X".toList, c ≠ '"' ∧ c ≠ '\r' ∧ c ≠ '\n')
    ∧ (∀ c ∈ "filename=".toList, c ≠ '"' ∧ c ≠ '\r' ∧ c ≠ '\n')
    ∧ (∀ c ∈ "a.jpg".toList, c ≠ '"' ∧ c ≠ '\r' ∧ c ≠ '\n')
    ∧ (∃ ext ∈ [".jpg".toList, ".jpeg".toList], ext <:+ "a.jpg".toList)
    ∧ "DATA".toList ≠ []
    ∧ ¬ ("--".toList ++ "----X".toList) <:+: dispositionLine "filename=".toList "a.jpg".toList
    ∧ ¬ ("--".toList ++ "----X".toList) <:+: "DATA".toList
    ∧ SaveUploadFile.extract
        { Init with
          header_ := [("Content-Type".toList, "multipart/form-data; boundary=----X".toList)],
          body_ := multipartBody "----X".toList "filename=".toList "a.jpg".toList "DATA".toList }
        "filename=".toList [".jpg".toList, ".jpeg".toList] = none
    ∧ SaveUploadFile.file
        (dispositionLine "filename=".toList "a.jpg".toList ++ "\r\n\r\nDATA\r\n".toList)
        "filename=".toList ["=".toList] = some ("; filename=".toList, "DATA".toList) := by
  refine ⟨by decide, by decide, by decide, by decide, by decide, by decide, by decide,
    by decide, by decide⟩

theorem c_str_of_no_NUL (s : Str) (h : '\x00' ∉ s) : c_str s = s := by
  unfold c_str
  rw [List.takeWhile_eq_self_iff]
  intro c hc
  have : c ≠ '\x00' := fun e => h (e ▸ hc)
  simpa using this

/-- C10, amended. For a boundary token `b`, a field name `F` and a file name `f`, all
without quote, CR or LF, where `F` does not end with `filename=` and `f` ends in one of
the allowed extensions, and a non-empty payload `d`, the marker `"--" b` occurring
neither in the disposition line nor in `d`: with the Content-Type
`multipart/form-data; boundary=b` and the body
`"--" b CRLF Content-Disposition: form-data; name="F"; filename="f" CRLF CRLF d CRLF "--" b "--"`
the extraction for the field `F` reaches the save step with the file name `f` and the
payload `d`, and `SaveUploadFile` writes `d`, when the file opens, to the file that the
C string of the path names: the bytes of the directory, the time stamp, `_` and `f` up to
the first NUL, which is the whole path when it holds no NUL. -/
theorem SaveUploadFile__extracts (env : Env) (tr : Trace) (r : Request) (b F f d dir : Str)
    (exts : List Str)
    (hb : ∀ c ∈ b, c ≠ '"' ∧ c ≠ '\r' ∧ c ≠ '\n')
    (hF : ∀ c ∈ F, c ≠ '"' ∧ c ≠ '\r' ∧ c ≠ '\n')
    (hf : ∀ c ∈ f, c ≠ '"' ∧ c ≠ '\r' ∧ c ≠ '\n')
    (hFn : ¬ "filename=".toList <:+ F)
    (hext : ∃ ext ∈ exts, ext <:+ f)
    (hd : d ≠ [])
    (hMH : ¬ ("--".toList ++ b) <:+: dispositionLine F f)
    (hMd : ¬ ("--".toList ++ b) <:+: d)
    (hct : dictFind r.header_ "Content-Type".toList
      = some ("multipart/form-data; boundary=".toList ++ b))
    (hbody : r.body_ = multipartBody b F f d) :
    SaveUploadFile.extract r F exts = some (f, d)
    ∧ SaveUploadFile env r F dir exts tr
        = (if env.ofs_open (c_str (dir ++ (env.timestr ++ "_".toList ++ f))) then
            (true, { tr with
              written := tr.written ++ [(c_str (dir ++ (env.timestr ++ "_".toList ++ f)), d)] })
          else (false, tr))
    ∧ ('\x00' ∉ dir ++ (env.timestr ++ "_".toList ++ f) →
        c_str (dir ++ (env.timestr ++ "_".toList ++ f))
          = dir ++ (env.timestr ++ "_".toList ++ f)) := by
  have hx : SaveUploadFile.extract r F exts = some (f, d) := by
    simp only [SaveUploadFile.extract, part_of_multipartBody r b F f d hb hMH hMd hct hbody,
      file_of_part F f d exts hF hf hext hd hFn]
  refine ⟨hx, ?_, c_str_of_no_NUL _⟩
  simp only [SaveUploadFile, hx]

set_option maxRecDepth 100000 in
/-- C10 amended, at the boundary `----X`, the field `image`, the payload `DATA` and the
extensions `.jpg` and `.jpeg`, in a world where the file opens: with the file name
`a.jpg` the payload goes to `resources/images/_a.jpg`, with the file name `a`, NUL,
`.jpg` it goes to `resources/images/_a`. -/
theorem SaveUploadFile__extracts_witness :
    multipartBody "----X".toList "image".toList "a.jpg".toList "DATA".toList
      = ("------X\r\nContent-Disposition: form-data; name=\"image\"; filename=\"a.jpg\"\r\n\r\n"
          ++ "DATA\r\n------X--").toList
    ∧ (SaveUploadFile.extract
        { Init with
          header_ := [("Content-Type".toList, "multipart/form-data; boundary=----X".toList)],
          body_ := multipartBody "----X".toList "image".toList "a.jpg".toList "DATA".toList }
        "image".toList [".jpg".toList, ".jpeg".toList] = some ("a.jpg".toList, "DATA".toList)
      ∧ SaveUploadFile { env0 with ofs_open := fun _ => true }
          { Init with
            header_ := [("Content-Type".toList, "multipart/form-data; boundary=----X".toList)],
            body_ := multipartBody "----X".toList "image".toList "a.jpg".toList "DATA".toList }
          "image".toList "resources/images/".toList [".jpg".toList, ".jpeg".toList] tr0
        = (true, { tr0 with written := [("resources/images/_a.jpg".toList, "DATA".toList)] }))
    ∧ SaveUploadFile { env0 with ofs_open := fun _ => true }
        { Init with
          header_ := [("Content-Type".toList, "multipart/form-data; boundary=----X".toList)],
          body_ := multipartBody "----X".toList "image".toList "a\x00.jpg".toList "DATA".toList }
        "image".toList "resources/images/".toList [".jpg".toList, ".jpeg".toList] tr0
      = (true, { tr0 with written := [("resources/images/_a".toList, "DATA".toList)] }) :=
  ⟨by decide,
    ⟨(SaveUploadFile__extracts { env0 with ofs_open := fun _ => true } tr0
      { Init with
        header_ := [("Content-Type".toList, "multipart/form-data; boundary=----X".toList)],
        body_ := multipartBody "----X".toList "image".toList "a.jpg".toList "DATA".toList }
      "----X".toList "image".toList "a.jpg".toList "DATA".toList "resources/images/".toList
      [".jpg".toList, ".jpeg".toList]
      (by decide) (by decide) (by decide) (by decide) (by decide) (by decide) (by decide)
      (by decide) (by decide) (by decide)).1,
    ((SaveUploadFile__extracts { env0 with ofs_open := fun _ => true } tr0
      { Init with
        header_ := [("Content-Type".toList, "multipart/form-data; boundary=----X".toList)],
        body_ := multipartBody "----X".toList "image".toList "a.jpg".toList "DATA".toList }
      "----X".toList "image".toList "a.jpg".toList "DATA".toList "resources/images/".toList
      [".jpg".toList, ".jpeg".toList]
      (by decide) (by decide) (by decide) (by decide) (by decide) (by decide) (by decide)
      (by decide) (by decide) (by decide)).2.1.trans (by decide))⟩,
    ((SaveUploadFile__extracts { env0 with ofs_open := fun _ => true } tr0
      { Init with
        header_ := [("Content-Type".toList, "multipart/form-data; boundary=----X".toList)],
        body_ := multipartBody "----X".toList "image".toList "a\x00.jpg".toList "DATA".toList }
      "----X".toList "image".toList "a\x00.jpg".toList "DATA".toList "resources/images/".toList
      [".jpg".toList, ".jpeg".toList]
      (by decide) (by decide) (by decide) (by decide) (by decide) (by decide) (by decide)
      (by decide) (by decide) (by decide)).2.1.trans (by decide))⟩
/-! ## Keep-alive, idempotence and the order of the states -/

theorem dictCount_eq_one (d : Dict) (key : Str) :
    dictCount d key = 1 ↔ ∃ v, dictFind d key = some v := by
  unfold dictCount
  cases dictFind d key <;> simp

/-- C14. `IsKeepAlive` returns `true` exactly when the headers hold the key `Connection`
with the value `keep-alive` and the version is `1.1`; it is `false` for the version
`1.0`, whatever the headers. -/
theorem IsKeepAlive__iff (r : Request) :
    (IsKeepAlive r = true ↔
      dictFind r.header_ "Connection".toList = some "keep-alive".toList
        ∧ r.version_ = "1.1".toList)
    ∧ (r.version_ = "1.0".toList → IsKeepAlive r = false) := by
  have hiff : IsKeepAlive r = true ↔
      dictFind r.header_ "Connection".toList = some "keep-alive".toList
        ∧ r.version_ = "1.1".toList := by
    unfold IsKeepAlive
    by_cases hc : dictCount r.header_ "Connection".toList = 1
    · rw [if_pos hc]
      simp only [Bool.and_eq_true, decide_eq_true_eq]
    · rw [if_neg hc]
      constructor
      · intro h; cases h
      · rintro ⟨h, _⟩
        exact absurd ((dictCount_eq_one _ _).mpr ⟨_, h⟩) hc
  refine ⟨hiff, fun hv => ?_⟩
  cases hk : IsKeepAlive r with
  | false => rfl
  | true =>
    have := (hiff.mp hk).2
    rw [hv] at this
    exact absurd this (by decide)

/-- C14, at a request of version `1.0` with the header `Connection: keep-alive`. -/
theorem IsKeepAlive__iff_witness :
    IsKeepAlive { Init with version_ := "1.0".toList,
                            header_ := [("Connection".toList, "keep-alive".toList)] } = false
    ∧ IsKeepAlive { Init with version_ := "1.1".toList,
                              header_ := [("Connection".toList, "keep-alive".toList)] } = true :=
  ⟨(IsKeepAlive__iff
      { Init with
        version_ := "1.0".toList,
        header_ := [("Connection".toList, "keep-alive".toList)] }).2 (by decide),
    by decide⟩

theorem parse_of_finish (env : Env) (r : Request) (buff : Str) (tr : Trace)
    (h : r.state_ = .FINISH) :
    parse env r buff tr = .ok ⟨!buff.isEmpty, r, buff, tr⟩ := by
  cases buff with
  | nil => simp [parse]
  | cons c t =>
    have hpos : ¬ (c :: t).length ≤ 0 := by simp
    rw [parse, if_neg hpos, List.length_cons, parse.loop]
    simp [h]

/-- C15. On a request whose state is `FINISH`, `parse` changes no member and consumes no
byte of the buffer, whatever the buffer holds (it returns `false` on an empty buffer,
`true` otherwise); so a second call on what the first one left gives the same again. -/
theorem parse__idempotent (env : Env) (r : Request) (buff : Str) (tr : Trace)
    (h : r.state_ = .FINISH) :
    parse env r buff tr = .ok ⟨!buff.isEmpty, r, buff, tr⟩
    ∧ (match parse env r buff tr with
        | .ok out => parse env out.req out.buff out.trace
        | .fault f => .fault f) = parse env r buff tr := by
  have h1 := parse_of_finish env r buff tr h
  refine ⟨h1, ?_⟩
  rw [h1]
  exact h1

/-- C15, at a finished request and the buffer `abc`. -/
theorem parse__idempotent_witness :
    parse env0 { Init with state_ := .FINISH, method_ := "GET".toList } "abc".toList tr0
      = .ok ⟨true, { Init with state_ := .FINISH, method_ := "GET".toList }, "abc".toList, tr0⟩
    ∧ (match parse env0 { Init with state_ := .FINISH, method_ := "GET".toList } "abc".toList tr0
        with
        | .ok out => parse env0 out.req out.buff out.trace
        | .fault f => .fault f)
      = parse env0 { Init with state_ := .FINISH, method_ := "GET".toList } "abc".toList tr0 :=
  parse__idempotent env0 { Init with state_ := .FINISH, method_ := "GET".toList } "abc".toList
    tr0 rfl

theorem ParsePath__state (r : Request) : (ParsePath_ r).state_ = r.state_ := by
  rw [ParsePath__rest]

theorem ParseHeader__rank (stack : Nat) (r r1 : Request) (line : Str)
    (h : ParseHeader_ stack r line = .ok r1) :
    r.state_.rank ≤ r1.state_.rank ∨ r.state_ = .FINISH := by
  rcases ParseHeader__ok stack r r1 line h with ⟨caps, h1⟩ | h1
  · subst h1
    exact Or.inl (Nat.le_refl _)
  · subst h1
    cases hs : r.state_ with
    | FINISH => exact Or.inr rfl
    | REQUEST_LINE => exact Or.inl (by simp [PARSE_STATE.rank])
    | HEADERS => exact Or.inl (by simp [PARSE_STATE.rank])
    | BODY => exact Or.inl (by simp [PARSE_STATE.rank])

theorem ParseBody__state (env : Env) (r r1 : Request) (line : Str) (tr tr1 : Trace)
    (h : ParseBody_ env r line tr = .ok (r1, tr1)) : r1.state_ = .FINISH := by
  unfold ParseBody_ at h
  cases hp : ParsePost_ env { r with body_ := line } tr with
  | fault e => rw [hp] at h; cases h
  | ok a =>
    obtain ⟨r2, tr2⟩ := a
    rw [hp] at h
    simp only [Res.ok.injEq, Prod.mk.injEq] at h
    rw [← h.1]

theorem parse_switch_rank (env : Env) (r r1 : Request) (line : Str) (readable : Nat)
    (tr tr1 : Trace) (b : Bool) (h : parse.switch env r line readable tr = .ok (b, r1, tr1)) :
    r.state_.rank ≤ r1.state_.rank := by
  unfold parse.switch at h
  cases hst : r.state_ with
  | REQUEST_LINE => exact Nat.zero_le _
  | HEADERS =>
    rw [hst] at h
    simp only at h
    cases hp : ParseHeader_ env.regexLimit r line with
    | fault e => rw [hp] at h; cases h
    | ok r2 =>
      rw [hp] at h
      simp only [Res.ok.injEq, Prod.mk.injEq] at h
      rw [← h.2.1]
      split_ifs
      · simp [PARSE_STATE.rank]
      · rcases ParseHeader__rank env.regexLimit r r2 line hp with h1 | h1
        · rw [hst] at h1; exact h1
        · rw [hst] at h1; cases h1
  | BODY =>
    rw [hst] at h
    simp only at h
    cases hb : ParseBody_ env r line tr with
    | fault e => rw [hb] at h; cases h
    | ok a =>
      obtain ⟨r2, tr2⟩ := a
      rw [hb] at h
      simp only [Res.ok.injEq, Prod.mk.injEq] at h
      rw [← h.2.1, ParseBody__state env r r2 line tr tr2 hb]
      simp [PARSE_STATE.rank]
  | FINISH =>
    rw [hst] at h
    simp only [Res.ok.injEq, Prod.mk.injEq] at h
    rw [← h.2.1, hst]

theorem parse_loop_rank (env : Env) :
    ∀ (fuel : Nat) (r : Request) (buff : Str) (tr : Trace) (out : Parsed),
      parse.loop env fuel r buff tr = .ok out → r.state_.rank ≤ out.req.state_.rank := by
  intro fuel
  induction fuel with
  | zero =>
    intro r buff tr out h
    rw [parse.loop] at h
    split_ifs at h
    simp only [Res.ok.injEq] at h
    rw [← h]
  | succ fuel ih =>
    intro r buff tr out h
    rw [parse.loop] at h
    split_ifs at h with hc
    · simp only at h
      cases hsw : parse.switch env r (List.take (search buff) buff) buff.length tr with
      | fault e => rw [hsw] at h; cases h
      | ok a =>
        obtain ⟨b, r1, tr1⟩ := a
        have hr := parse_switch_rank env r r1 _ _ tr tr1 b hsw
        rw [hsw] at h
        cases b with
        | false =>
          simp only [Res.ok.injEq] at h
          rw [← h]; exact hr
        | true =>
          simp only at h
          split_ifs at h with he
          · simp only [Res.ok.injEq] at h
            rw [← h]; exact hr
          · exact Nat.le_trans hr (ih r1 _ tr1 out h)
    · simp only [Res.ok.injEq] at h
      rw [← h]

/-- C16. With the order `REQUEST_LINE < HEADERS < BODY < FINISH`, the state after a call
of `parse` is never before the state at its start, for every request and every buffer,
and so is the state after each single turn of the `switch` (request line, header,
heuristic finish, body); the call returns unless the form decoder reads past the end of
the body or the matcher overflows the stack on a long line. -/
theorem parse__state_forward (env : Env) (r : Request) (buff : Str) (tr : Trace) :
    (match parse env r buff tr with
      | .ok out => r.state_.rank ≤ out.req.state_.rank
      | .fault f => f = .outOfRange ∨ f = .stackOverflow)
    ∧ (∀ (line : Str) (readable : Nat),
        match parse.switch env r line readable tr with
        | .ok (_, r1, _) => r.state_.rank ≤ r1.state_.rank
        | .fault f => (f = .outOfRange ∧ r.state_ = .BODY)
            ∨ (f = .stackOverflow ∧ r.state_ ≠ .BODY ∧ env.regexLimit < line.length)) := by
  constructor
  · cases hp : parse env r buff tr with
    | fault f => exact parse_fault env r buff tr f hp
    | ok out =>
      simp only
      unfold parse at hp
      split_ifs at hp
      · simp only [Res.ok.injEq] at hp
        rw [← hp]
      · exact parse_loop_rank env _ r buff tr out hp
  · intro line readable
    cases hsw : parse.switch env r line readable tr with
    | fault f => exact parse_switch_fault env r line readable tr f hsw
    | ok a =>
      obtain ⟨b, r1, tr1⟩ := a
      exact parse_switch_rank env r r1 line readable tr tr1 b hsw

/-- C17, refuted as stated: the line `GET  HTTP/1.1`, with an empty second token, is
accepted and leaves the empty path; the line `GET foo HTTP/1.1` is accepted and leaves
the path `foo`, which does not begin with `/`. -/
theorem requestLine_path_without_slash :
    ParseRequestLine_ 26000 Init "GET  HTTP/1.1".toList
      = .ok (true, { Init with method_ := "GET".toList, path_ := [],
                               version_ := "1.1".toList, state_ := .HEADERS })
    ∧ (ParsePath_ { Init with method_ := "GET".toList, path_ := [],
                              version_ := "1.1".toList, state_ := .HEADERS }).path_ = []
    ∧ ParseRequestLine_ 26000 Init "GET foo HTTP/1.1".toList
      = .ok (true, { Init with method_ := "GET".toList, path_ := "foo".toList,
                               version_ := "1.1".toList, state_ := .HEADERS })
    ∧ (ParsePath_ { Init with method_ := "GET".toList, path_ := "foo".toList,
                              version_ := "1.1".toList, state_ := .HEADERS }).path_
        = "foo".toList
    ∧ "foo".toList.head? ≠ some '/' := by
  decide

theorem normalisedPath_head (p : Str) (h : p.head? = some '/') :
    normalisedPath p ≠ [] ∧ (normalisedPath p).head? = some '/' := by
  cases p with
  | nil => simp at h
  | cons c t =>
    simp only [List.head?_cons, Option.some.injEq] at h
    subst h
    unfold normalisedPath
    split_ifs <;> simp

/-- C17, amended. For every line `m ' ' p " HTTP/" v` whose path token `p` begins with
`/`: whenever `ParseRequestLine_` returns on it, it accepts it, and the path held after
the request-line step (`ParseRequestLine_`, then `ParsePath_`) is the normalised `p`; it
is non-empty and begins with `/`. The call returns when the line is one
`std::regex_match` can take (at most `stack` bytes); on a longer line the matcher
overflows the stack. -/
theorem requestLine_path_slash (stack : Nat) (r : Request) (m p v : Str)
    (hm : ' ' ∉ m) (hp : ' ' ∉ p) (hv : ' ' ∉ v) (hslash : p.head? = some '/') :
    (match ParseRequestLine_ stack r (m ++ ' ' :: p ++ " HTTP/".toList ++ v) with
      | .ok (b, r1) => b = true
          ∧ (ParsePath_ r1).path_ = normalisedPath p
          ∧ (ParsePath_ r1).path_ ≠ []
          ∧ (ParsePath_ r1).path_.head? = some '/'
      | .fault f => f = .stackOverflow
          ∧ stack < (m ++ ' ' :: p ++ " HTTP/".toList ++ v).length)
    ∧ ((m ++ ' ' :: p ++ " HTTP/".toList ++ v).length ≤ stack →
        ∃ r1, ParseRequestLine_ stack r (m ++ ' ' :: p ++ " HTTP/".toList ++ v)
          = .ok (true, r1)) := by
  have hpath : (ParsePath_
      { r with method_ := m, path_ := p, version_ := v, state_ := .HEADERS }).path_
      = normalisedPath p := ParsePath__path _
  constructor
  · by_cases hc : stack < (m ++ ' ' :: p ++ " HTTP/".toList ++ v).length
    · rw [ParseRequestLine__overflow stack r _ hc]
      exact ⟨rfl, hc⟩
    · rw [ParseRequestLine__accept stack r m p v hm hp hv (by omega)]
      refine ⟨rfl, hpath, ?_, ?_⟩
      · rw [hpath]; exact (normalisedPath_head p hslash).1
      · rw [hpath]; exact (normalisedPath_head p hslash).2
  · intro hfit
    exact ⟨_, ParseRequestLine__accept stack r m p v hm hp hv hfit⟩

/-- C17 amended, at the line `GET /login HTTP/1.1`. -/
theorem requestLine_path_slash_witness :
    (match ParseRequestLine_ 26000 Init ("GET".toList ++ ' ' :: "/login".toList
        ++ " HTTP/".toList ++ "1.1".toList) with
      | .ok (b, r1) => b = true
          ∧ (ParsePath_ r1).path_ = normalisedPath "/login".toList
          ∧ (ParsePath_ r1).path_ ≠ []
          ∧ (ParsePath_ r1).path_.head? = some '/'
      | .fault f => f = .stackOverflow
          ∧ 26000 < ("GET".toList ++ ' ' :: "/login".toList ++ " HTTP/".toList
              ++ "1.1".toList).length)
    ∧ (("GET".toList ++ ' ' :: "/login".toList ++ " HTTP/".toList ++ "1.1".toList).length
          ≤ 26000 →
        ∃ r1, ParseRequestLine_ 26000 Init ("GET".toList ++ ' ' :: "/login".toList
            ++ " HTTP/".toList ++ "1.1".toList) = .ok (true, r1)) :=
  requestLine_path_slash 26000 Init "GET".toList "/login".toList "1.1".toList (by decide)
    (by decide) (by decide) (by decide)
/-! ## POST dispatch -/

theorem dictTouch_of_some (d : Dict) (key v : Str) (h : dictFind d key = some v) :
    dictTouch d key = d := by
  simp only [dictTouch, h]

theorem dictFind_dictTouch (d : Dict) (key key' : Str) :
    dictFind (dictTouch d key) key'
      = if key' = key then some ((dictFind d key).getD []) else dictFind d key' := by
  unfold dictTouch
  cases hd : dictFind d key with
  | some v =>
    by_cases hk : key' = key
    · subst hk; simp [hd]
    · simp [hk]
  | none =>
    simp only [dictFind_dictSet, Option.getD_none]

theorem getD_dictFind_dictTouch (d : Dict) (key key' : Str) :
    (dictFind (dictTouch d key) key').getD [] = (dictFind d key').getD [] := by
  rw [dictFind_dictTouch]
  by_cases hk : key' = key
  · subst hk; simp
  · simp [hk]

theorem ParseFromUrlencoded__cases (r : Request) :
    ParseFromUrlencoded_ r = .fault .outOfRange
    ∨ ∃ body post, ParseFromUrlencoded_ r = .ok { r with body_ := body, post_ := post } := by
  cases hp : ParseFromUrlencoded_ r with
  | fault f =>
    left
    rw [ParseFromUrlencoded__fault r f hp]
  | ok r2 =>
    right
    unfold ParseFromUrlencoded_ at hp
    split_ifs at hp with h0
    · simp only [Res.ok.injEq] at hp
      exact ⟨r.body_, r.post_, by rw [← hp]⟩
    · simp only at hp
      split at hp
      · cases hp
      · split_ifs at hp
        · simp only [Res.ok.injEq] at hp
          exact ⟨_, _, by rw [← hp]⟩
        · simp only [Res.ok.injEq] at hp
          exact ⟨_, _, by rw [← hp]⟩

theorem UserVerify_empty (env : Env) (name pwd : Str) (isLogin : Bool) (tr : Trace)
    (h : name = [] ∨ pwd = []) : UserVerify env name pwd isLogin tr = (false, tr) := by
  simp only [UserVerify, h, if_true]

/-- C12. For a POST request whose Content-Type header is exactly
`application/x-www-form-urlencoded` and whose path is `/login.html` or `/register.html`,
either the form decoder reads past the end of the body, or the body is processed and the
path is then `/welcome.html` when `UserVerify` returned `true` on the decoded user name
and password and `/error.html` otherwise; and when the decoded user name or password is
empty or absent `UserVerify` returns `false` without a query to the store. -/
theorem ParseBody__credentials (env : Env) (r : Request) (line : Str) (tr : Trace)
    (hm : r.method_ = "POST".toList)
    (hct : dictFind r.header_ "Content-Type".toList
      = some "application/x-www-form-urlencoded".toList)
    (hp : r.path_ = "/login.html".toList ∨ r.path_ = "/register.html".toList) :
    (ParseFromUrlencoded_ { r with body_ := line } = .fault .outOfRange
      ∧ ParseBody_ env r line tr = .fault .outOfRange)
    ∨ ∃ body post,
        ParseFromUrlencoded_ { r with body_ := line } = .ok { r with body_ := body, post_ := post }
        ∧ ParseBody_ env r line tr
          = .ok ({ r with
                   body_ := body,
                   post_ := dictTouch (dictTouch post "username".toList) "password".toList,
                   path_ :=
                     if (UserVerify env (usernameOf post) (passwordOf post)
                          (decide (r.path_ = "/login.html".toList)) tr).1 = true
                     then "/welcome.html".toList else "/error.html".toList,
                   state_ := .FINISH },
                 (UserVerify env (usernameOf post) (passwordOf post)
                    (decide (r.path_ = "/login.html".toList)) tr).2)
        ∧ ((usernameOf post = [] ∨ passwordOf post = []) →
            UserVerify env (usernameOf post) (passwordOf post)
              (decide (r.path_ = "/login.html".toList)) tr = (false, tr)) := by
  obtain ⟨method, path, version, body0, state, header, post0⟩ := r
  simp only at hm hct hp
  subst hm
  have htouch : dictTouch header "Content-Type".toList = header :=
    dictTouch_of_some _ _ _ hct
  rcases ParseFromUrlencoded__cases
      ⟨"POST".toList, path, version, line, state, header, post0⟩ with hf | ⟨body, post, hok⟩
  · left
    refine ⟨hf, ?_⟩
    simp only [ParseBody_, ParsePost_, ParsePost_.form, if_true, htouch, hct, hf]
  · right
    refine ⟨body, post, hok, ?_, fun h => UserVerify_empty env _ _ _ tr h⟩
    simp only at hok
    have hu : (dictFind (dictTouch (dictTouch post "username".toList) "password".toList)
        "username".toList).getD [] = usernameOf post := by
      rw [getD_dictFind_dictTouch, getD_dictFind_dictTouch]
      rfl
    have hpw : (dictFind (dictTouch (dictTouch post "username".toList) "password".toList)
        "password".toList).getD [] = passwordOf post := by
      rw [getD_dictFind_dictTouch, getD_dictFind_dictTouch]
      rfl
    have hw1 : ¬ "/welcome.html".toList = "/upload_image".toList := by decide
    have hw2 : ¬ "/welcome.html".toList = "/upload_video".toList := by decide
    have he1 : ¬ "/error.html".toList = "/upload_image".toList := by decide
    have he2 : ¬ "/error.html".toList = "/upload_video".toList := by decide
    rcases hp with hp | hp
    · subst hp
      have hlk : DEFAULT_HTML_TAG.lookup "/login.html".toList = some 1 := by decide
      simp only [ParseBody_, ParsePost_, ParsePost_.form, if_true, htouch, hct, hok, hlk, hu,
        hpw, or_true, decide_True]
      generalize UserVerify env (usernameOf post) (passwordOf post) true tr = uv
      obtain ⟨b, tr1⟩ := uv
      cases b
      · simp only [he1, he2, false_and, if_false, Bool.false_eq_true]
      · simp only [hw1, hw2, false_and, if_false, if_true]
    · subst hp
      have hlk : DEFAULT_HTML_TAG.lookup "/register.html".toList = some 0 := by decide
      have hne : ¬ "/register.html".toList = "/login.html".toList := by decide
      have h10 : ¬ (0 : Int) = 1 := by decide
      simp only [ParseBody_, ParsePost_, ParsePost_.form, if_true, htouch, hct, hok, hlk, hu,
        hpw, true_or, hne, h10, decide_False]
      generalize UserVerify env (usernameOf post) (passwordOf post) false tr = uv
      obtain ⟨b, tr1⟩ := uv
      cases b
      · simp only [he1, he2, false_and, if_false, Bool.false_eq_true]
      · simp only [hw1, hw2, false_and, if_false, if_true]

/-- C12, at a login with the body `username=a&password=b` against a store that fails,
and at a login with the body `username=a`, for which the store is not queried. -/
theorem ParseBody__credentials_witness :
    ((ParseFromUrlencoded_
          { ({ Init with
               method_ := "POST".toList,
               path_ := "/login.html".toList,
               state_ := .BODY,
               header_ := [("Content-Type".toList,
                            "application/x-www-form-urlencoded".toList)] } : Request) with
            body_ := "username=a".toList } = .fault .outOfRange
        ∧ ParseBody_ env0
            { Init with
              method_ := "POST".toList,
              path_ := "/login.html".toList,
              state_ := .BODY,
              header_ := [("Content-Type".toList, "application/x-www-form-urlencoded".toList)] }
            "username=a".toList tr0 = .fault .outOfRange)
      ∨ ∃ body post,
          ParseFromUrlencoded_
            { ({ Init with
                 method_ := "POST".toList,
                 path_ := "/login.html".toList,
                 state_ := .BODY,
                 header_ := [("Content-Type".toList,
                              "application/x-www-form-urlencoded".toList)] } : Request) with
              body_ := "username=a".toList }
            = .ok { ({ Init with
                       method_ := "POST".toList,
                       path_ := "/login.html".toList,
                       state_ := .BODY,
                       header_ := [("Content-Type".toList,
                                    "application/x-www-form-urlencoded".toList)] } : Request) with
                    body_ := body, post_ := post }
          ∧ ParseBody_ env0
              { Init with
                method_ := "POST".toList,
                path_ := "/login.html".toList,
                state_ := .BODY,
                header_ := [("Content-Type".toList, "application/x-www-form-urlencoded".toList)] }
              "username=a".toList tr0
            = .ok ({ ({ Init with
                        method_ := "POST".toList,
                        path_ := "/login.html".toList,
                        state_ := .BODY,
                        header_ := [("Content-Type".toList,
                                     "application/x-www-form-urlencoded".toList)] } : Request) with
                     body_ := body,
                     post_ := dictTouch (dictTouch post "username".toList) "password".toList,
                     path_ :=
                       if (UserVerify env0 (usernameOf post) (passwordOf post)
                            (decide (({ Init with
                               method_ := "POST".toList,
                               path_ := "/login.html".toList,
                               state_ := .BODY,
                               header_ := [("Content-Type".toList,
                                 "application/x-www-form-urlencoded".toList)] } : Request).path_
                              = "/login.html".toList)) tr0).1 = true
                       then "/welcome.html".toList else "/error.html".toList,
                     state_ := .FINISH },
                   (UserVerify env0 (usernameOf post) (passwordOf post)
                      (decide (({ Init with
                         method_ := "POST".toList,
                         path_ := "/login.html".toList,
                         state_ := .BODY,
                         header_ := [("Content-Type".toList,
                           "application/x-www-form-urlencoded".toList)] } : Request).path_
                        = "/login.html".toList)) tr0).2)
          ∧ ((usernameOf post = [] ∨ passwordOf post = []) →
              UserVerify env0 (usernameOf post) (passwordOf post)
                (decide (({ Init with
                   method_ := "POST".toList,
                   path_ := "/login.html".toList,
                   state_ := .BODY,
                   header_ := [("Content-Type".toList,
                     "application/x-www-form-urlencoded".toList)] } : Request).path_
                  = "/login.html".toList)) tr0 = (false, tr0)))
    ∧ ParseBody_ env0
        { Init with
          method_ := "POST".toList,
          path_ := "/login.html".toList,
          state_ := .BODY,
          header_ := [("Content-Type".toList, "application/x-www-form-urlencoded".toList)] }
        "username=a".toList tr0
      = .ok ({ Init with
               method_ := "POST".toList,
               path_ := "/error.html".toList,
               body_ := "username=a".toList,
               state_ := .FINISH,
               header_ := [("Content-Type".toList, "application/x-www-form-urlencoded".toList)],
               post_ := [("username".toList, "a".toList), ("password".toList, [])] }, tr0)
    ∧ ParseBody_ env0
        { Init with
          method_ := "POST".toList,
          path_ := "/login.html".toList,
          state_ := .BODY,
          header_ := [("Content-Type".toList, "application/x-www-form-urlencoded".toList)] }
        "username=a&password=b".toList tr0
      = .ok ({ Init with
               method_ := "POST".toList,
               path_ := "/error.html".toList,
               body_ := "username=a&password=b".toList,
               state_ := .FINISH,
               header_ := [("Content-Type".toList, "application/x-www-form-urlencoded".toList)],
               post_ := [("username".toList, "a".toList), ("password".toList, "b".toList)] },
             { issued := [("SELECT username, password FROM user WHERE username=\'a\' "
                          ++ "LIMIT 1").toList],
               written := [] }) :=
  ⟨ParseBody__credentials env0
      { Init with
        method_ := "POST".toList,
        path_ := "/login.html".toList,
        state_ := .BODY,
        header_ := [("Content-Type".toList, "application/x-www-form-urlencoded".toList)] }
      "username=a".toList tr0 rfl (by decide) (by decide),
    by decide, by decide⟩

/-- C13, the code at a registration whose `INSERT` fails: the lookup finds no row, the
`INSERT` is sent and fails, `flag = false` is overwritten by the `flag = true` that
follows the `if`, and `UserVerify` returns `true`. A failing `SELECT` does give `false`. -/
theorem UserVerify__insert_failure :
    envInsertFails.mysql_query
        "SELECT username, password FROM user WHERE username=\'new\' LIMIT 1".toList = some []
    ∧ envInsertFails.mysql_query
        "INSERT INTO user(username, password) VALUES(\'new\',\'p\')".toList = none
    ∧ UserVerify envInsertFails "new".toList "p".toList false tr0
        = (true,
           { issued := ["SELECT username, password FROM user WHERE username=\'new\' LIMIT 1".toList,
                        "INSERT INTO user(username, password) VALUES(\'new\',\'p\')".toList],
             written := [] })
    ∧ UserVerify env0 "new".toList "p".toList false tr0
        = (false,
           { issued := ["SELECT username, password FROM user WHERE username=\'new\' LIMIT 1".toList],
             written := [] }) := by
  refine ⟨by decide, by decide, by decide, by decide⟩

/-- C18, the code at the bodies `a=%` and `a=%4`: the `%` at index 2 is handled although
index 3, for the first body, and index 4, for both, are not below the length of the
body; the decoder reads, and for the second body writes, past the end. -/
theorem ParseFromUrlencoded__truncated :
    ParseFromUrlencoded_ { Init with body_ := "a=%".toList } = .fault .outOfRange
    ∧ ParseFromUrlencoded_ { Init with body_ := "a=%4".toList } = .fault .outOfRange
    ∧ ParseFromUrlencoded_.switch "a=%".toList.length
        { body_ := "a=%".toList, post_ := [], key := "a".toList, value := [], num := 0,
          i := 2, j := 2 } = .fault .outOfRange
    ∧ "a=%".toList.getD 2 'x' = '%'
    ∧ ¬ (2 + 1 < "a=%".toList.length)
    ∧ ¬ (2 + 2 < "a=%4".toList.length) := by
  decide

/-- C19, the code at a `POST` request without Content-Type header in state `BODY` and
the line `x`: the read `header_["Content-Type"]` adds the key with an empty value, so
the header map is not the one before. -/
theorem ParseBody__adds_header :
    dictCount ({ Init with method_ := "POST".toList, state_ := .BODY } : Request).header_
        "Content-Type".toList = 0
    ∧ ParseBody_ env0 { Init with method_ := "POST".toList, state_ := .BODY } "x".toList tr0
        = .ok ({ Init with
                 method_ := "POST".toList,
                 body_ := "x".toList,
                 state_ := .FINISH,
                 header_ := [("Content-Type".toList, [])] }, tr0)
    ∧ dictCount [("Content-Type".toList, ([] : Str))] "Content-Type".toList = 1
    ∧ ParseBody_ env0 { Init with method_ := "GET".toList, state_ := .BODY } "x".toList tr0
        = .ok ({ Init with
                 method_ := "GET".toList,
                 body_ := "x".toList,
                 state_ := .FINISH,
                 header_ := [] }, tr0) := by
  decide

/-! ## What a search result says -/

theorem findAux_some (pat : Str) :
    ∀ (s : Str) (idx r : Nat), findAux pat s idx = some r →
      ∃ k, r = idx + k ∧ k ≤ s.length ∧ pat <+: s.drop k ∧ ∀ j, j < k → ¬ pat <+: s.drop j := by
  intro s
  induction s with
  | nil =>
    intro idx r h
    rw [findAux] at h
    split_ifs at h with hp
    simp only [Option.some.injEq] at h
    exact ⟨0, by omega, Nat.le_refl _, List.isPrefixOf_iff_prefix.mp hp, fun j hj => by omega⟩
  | cons c t ih =>
    intro idx r h
    rw [findAux] at h
    split_ifs at h with hp
    · simp only [Option.some.injEq] at h
      exact ⟨0, by omega, Nat.zero_le _, List.isPrefixOf_iff_prefix.mp hp, fun j hj => by omega⟩
    · obtain ⟨k, hr, hk, hpre, hmin⟩ := ih (idx + 1) r h
      refine ⟨k + 1, by omega, by simp only [List.length_cons]; omega, hpre, ?_⟩
      intro j hj
      cases j with
      | zero =>
        intro hpre0
        exact hp (List.isPrefixOf_iff_prefix.mpr hpre0)
      | succ j => exact hmin j (by omega)

theorem findAux_eq_none (pat : Str) :
    ∀ (s : Str) (idx : Nat), findAux pat s idx = none →
      ∀ j, j ≤ s.length → ¬ pat <+: s.drop j := by
  intro s
  induction s with
  | nil =>
    intro idx h j hj hpre
    rw [findAux] at h
    split_ifs at h with hp
    have : j = 0 := by simpa using hj
    subst this
    exact hp (List.isPrefixOf_iff_prefix.mpr hpre)
  | cons c t ih =>
    intro idx h j hj hpre
    rw [findAux] at h
    split_ifs at h with hp
    cases j with
    | zero => exact hp (List.isPrefixOf_iff_prefix.mpr hpre)
    | succ j => exact ih (idx + 1) h j (by simpa using hj) hpre

theorem find_some (s pat : Str) (pos r : Nat) (h : find s pat pos = some r) :
    FirstAt s pat pos r := by
  unfold find at h
  split_ifs at h with hpos
  obtain ⟨k, hr, hk, hpre, hmin⟩ := findAux_some pat _ pos r h
  subst hr
  rw [List.drop_drop] at hpre
  simp only [List.length_drop] at hk
  refine ⟨by omega, by omega, ?_, ?_⟩
  · exact hpre
  · intro j hj1 hj2 hpj
    have := hmin (j - pos) (by omega)
    rw [List.drop_drop] at this
    have e : pos + (j - pos) = j := by omega
    rw [e] at this
    exact this hpj

theorem find_of_occurrence (s pat : Str) (pos j : Nat) (hj1 : pos ≤ j) (hj2 : j ≤ s.length)
    (hpre : pat <+: s.drop j) : ∃ r, find s pat pos = some r := by
  cases hf : find s pat pos with
  | some r => exact ⟨r, rfl⟩
  | none =>
    exfalso
    unfold find at hf
    have hpos : pos ≤ s.length := by omega
    rw [if_pos hpos] at hf
    have := findAux_eq_none pat _ pos hf (j - pos) (by simp only [List.length_drop]; omega)
    rw [List.drop_drop] at this
    have e : pos + (j - pos) = j := by omega
    rw [e] at this
    exact this hpre

theorem infix_of_prefix_drop (pat s : Str) (j : Nat) (h : pat <+: s.drop j) : pat <:+: s :=
  h.isInfix.trans (List.drop_suffix j s).isInfix

theorem infix_position (pat s : Str) (h : pat <:+: s) :
    ∃ j, j + pat.length ≤ s.length ∧ pat <+: s.drop j := by
  obtain ⟨a, b, hab⟩ := h
  refine ⟨a.length, ?_, ?_⟩
  · rw [← hab]; simp only [List.length_append]; omega
  · rw [← hab, List.append_assoc, List.drop_left]
    exact List.prefix_append _ _

theorem FirstAt_occurs (s pat : Str) (pos k : Nat) (h : FirstAt s pat pos k) : pat <:+: s :=
  infix_of_prefix_drop pat s k h.2.2.1

/-- The line that `parse` hands to the parser of the current state holds no CRLF. -/
theorem take_search_no_CRLF (buff : Str) : ¬ CRLF <:+: buff.take (search buff) := by
  intro hin
  obtain ⟨j, hjlen, hpre⟩ := infix_position _ _ hin
  have hpre2 : CRLF <+: buff.drop j := by
    have h1 : (buff.take (search buff)).drop j <+: buff.drop j := by
      rw [List.drop_take]
      exact List.take_prefix _ _
    exact hpre.trans h1
  have hlen : (buff.take (search buff)).length ≤ search buff := by
    rw [List.length_take]; exact Nat.min_le_left _ _
  unfold search at hlen hjlen
  cases hf : findAux CRLF buff 0 with
  | none =>
    have hjb : j ≤ buff.length := by
      have := hpre2.length_le
      simp only [List.length_drop, CRLF, List.length_cons, List.length_nil] at this
      omega
    exact findAux_eq_none CRLF buff 0 hf j hjb hpre2
  | some r =>
    rw [hf] at hlen hjlen
    simp only [Option.getD_some] at hlen hjlen
    obtain ⟨k, hr, _, _, hmin⟩ := findAux_some CRLF buff 0 r hf
    have hcl : CRLF.length = 2 := rfl
    exact hmin j (by omega) hpre2

/-! ## What a successful extraction has checked -/

theorem suffix_of_valid (f : Str) (exts : List Str) (h : SaveUploadFile.valid f exts = true) :
    ∃ ext ∈ exts, ext <:+ f := by
  induction exts with
  | nil => simp [SaveUploadFile.valid] at h
  | cons e rest ih =>
    rw [SaveUploadFile.valid] at h
    split_ifs at h with hc
    · refine ⟨e, by simp, f.take (f.length - e.length), ?_⟩
      have h3 := List.take_append_drop (f.length - e.length) f
      rw [hc.2] at h3
      exact h3
    · obtain ⟨ext, hin, hsuf⟩ := ih h
      exact ⟨ext, by simp [hin], hsuf⟩

theorem file_some (part field : Str) (exts : List Str) (x : Str × Str)
    (h : SaveUploadFile.file part field exts = some x) :
    ∃ dispPos namePos0 filenamePos0 filenameEnd dataPos0,
      find part "Content-Disposition:".toList 0 = some dispPos
      ∧ find part "name=\"".toList dispPos = some namePos0
      ∧ substrTo part (namePos0 + 6) (find part "\"".toList (namePos0 + 6)) = field
      ∧ find part "filename=\"".toList dispPos = some filenamePos0
      ∧ find part "\"".toList (filenamePos0 + 10) = some filenameEnd
      ∧ SaveUploadFile.valid x.1 exts = true
      ∧ x.1 = substr part (filenamePos0 + 10) (filenameEnd - (filenamePos0 + 10))
      ∧ find part "\r\n\r\n".toList filenameEnd = some dataPos0 := by
  unfold SaveUploadFile.file at h
  simp only at h
  split at h
  · cases h
  · rename_i dispPos hdisp
    split at h
    · cases h
    · rename_i namePos0 hname
      split_ifs at h with hform
      split at h
      · cases h
      · rename_i filenamePos0 hfile
        split_ifs at h with hvalid
        split at h
        · cases h
        · rename_i filenameEnd hfe
          split at h
          · cases h
          · rename_i dataPos0 hdata
            split at h
            · cases h
            · split_ifs at h
              simp only [Option.some.injEq] at h
              subst h
              refine ⟨dispPos, namePos0, filenamePos0, filenameEnd, dataPos0, hdisp, hname,
                not_not.mp hform, hfile, hfe, ?_, ?_, hdata⟩
              · simpa using hvalid
              · simp only [hfe, substrTo]


theorem extract_some (r : Request) (field : Str) (exts : List Str) (x : Str × Str)
    (h : SaveUploadFile.extract r field exts = some x) :
    ∃ part, SaveUploadFile.part r = some part ∧ SaveUploadFile.file part field exts = some x := by
  unfold SaveUploadFile.extract at h
  split at h
  · cases h
  · rename_i part hpart
    exact ⟨part, hpart, h⟩

set_option maxRecDepth 100000 in
/-- C11. When the extraction succeeds, the text between the first `name="` found at or
after the first `Content-Disposition:` of the part and the next `"` is the requested
field, and the extracted file name ends with one of the allowed extensions, compared
character by character. Requesting `video` on a part with `name="image"` fails, and so
do the file names `a.txt` and `a.JPG` against `.jpg` and `.jpeg`. -/
theorem SaveUploadFile__checks (r : Request) (field : Str) (exts : List Str)
    (filename filedata : Str)
    (h : SaveUploadFile.extract r field exts = some (filename, filedata)) :
    (∃ part dispPos namePos nameEnd,
      SaveUploadFile.part r = some part
      ∧ FirstAt part "Content-Disposition:".toList 0 dispPos
      ∧ FirstAt part "name=\"".toList dispPos namePos
      ∧ FirstAt part "\"".toList (namePos + 6) nameEnd
      ∧ (part.drop (namePos + 6)).take (nameEnd - (namePos + 6)) = field)
    ∧ (∃ ext ∈ exts, ext <:+ filename)
    ∧ SaveUploadFile.extract
        { Init with
          header_ := [("Content-Type".toList, "multipart/form-data; boundary=----X".toList)],
          body_ := multipartBody "----X".toList "image".toList "a.jpg".toList "DATA".toList }
        "video".toList [".jpg".toList, ".jpeg".toList] = none
    ∧ SaveUploadFile.extract
        { Init with
          header_ := [("Content-Type".toList, "multipart/form-data; boundary=----X".toList)],
          body_ := multipartBody "----X".toList "image".toList "a.txt".toList "DATA".toList }
        "image".toList [".jpg".toList, ".jpeg".toList] = none
    ∧ SaveUploadFile.extract
        { Init with
          header_ := [("Content-Type".toList, "multipart/form-data; boundary=----X".toList)],
          body_ := multipartBody "----X".toList "image".toList "a.JPG".toList "DATA".toList }
        "image".toList [".jpg".toList, ".jpeg".toList] = none := by
  refine ⟨?_, ?_, by decide, by decide, by decide⟩
  · obtain ⟨part, hpart, hfile⟩ := extract_some r field exts _ h
    obtain ⟨dispPos, namePos0, filenamePos0, filenameEnd, dataPos0, hdisp, hname, hform, hfn,
      hfe, _, _, _⟩ := file_some part field exts _ hfile
    have hF := find_some _ _ _ _ hfn
    have hN := find_some _ _ _ _ hname
    have hE := find_some _ _ _ _ hfe
    -- `name="` occurs four characters after `filename="`
    have hocc : "name=\"".toList <+: part.drop (filenamePos0 + 4) := by
      obtain ⟨t, ht⟩ := hF.2.2.1
      refine ⟨t, ?_⟩
      rw [← List.drop_drop, ← ht]
      rfl
    have hle : namePos0 ≤ filenamePos0 + 4 := by
      by_contra hgt
      exact hN.2.2.2 (filenamePos0 + 4) (by have := hF.1; omega) (by omega) hocc
    -- so the quote that ends the file name is at or after the start of the field name
    obtain ⟨nameEnd, hne⟩ := find_of_occurrence part "\"".toList (namePos0 + 6) filenameEnd
      (by have := hE.1; omega) hE.2.1 hE.2.2.1
    refine ⟨part, dispPos, namePos0, nameEnd, hpart, find_some _ _ _ _ hdisp, hN,
      find_some _ _ _ _ hne, ?_⟩
    rw [hne] at hform
    exact hform
  · obtain ⟨part, _, hfile⟩ := extract_some r field exts _ h
    obtain ⟨_, _, _, _, _, _, _, _, _, _, hvalid, _, _⟩ := file_some part field exts _ hfile
    exact suffix_of_valid _ _ hvalid

set_option maxRecDepth 100000 in
/-- C11, at the part with the field `image`, the file name `a.jpg` and the payload
`DATA`. -/
theorem SaveUploadFile__checks_witness :
    (∃ part dispPos namePos nameEnd,
      SaveUploadFile.part
          { Init with
            header_ := [("Content-Type".toList, "multipart/form-data; boundary=----X".toList)],
            body_ := multipartBody "----X".toList "image".toList "a.jpg".toList "DATA".toList }
        = some part
      ∧ FirstAt part "Content-Disposition:".toList 0 dispPos
      ∧ FirstAt part "name=\"".toList dispPos namePos
      ∧ FirstAt part "\"".toList (namePos + 6) nameEnd
      ∧ (part.drop (namePos + 6)).take (nameEnd - (namePos + 6)) = "image".toList)
    ∧ (∃ ext ∈ [".jpg".toList, ".jpeg".toList], ext <:+ "a.jpg".toList) :=
  ⟨(SaveUploadFile__checks
      { Init with
        header_ := [("Content-Type".toList, "multipart/form-data; boundary=----X".toList)],
        body_ := multipartBody "----X".toList "image".toList "a.jpg".toList "DATA".toList }
      "image".toList [".jpg".toList, ".jpeg".toList] "a.jpg".toList "DATA".toList
      (by decide)).1,
    (SaveUploadFile__checks
      { Init with
        header_ := [("Content-Type".toList, "multipart/form-data; boundary=----X".toList)],
        body_ := multipartBody "----X".toList "image".toList "a.jpg".toList "DATA".toList }
      "image".toList [".jpg".toList, ".jpeg".toList] "a.jpg".toList "DATA".toList
      (by decide)).2.1⟩

/-! ## Uploads through `parse` -/

theorem substr_in_text (s : Str) (pos len : Nat) : substr s pos len <:+: s :=
  (List.take_prefix len (s.drop pos)).isInfix.trans (List.drop_suffix pos s).isInfix

theorem part_in_body (r : Request) (part : Str) (h : SaveUploadFile.part r = some part) :
    part <:+: r.body_ := by
  unfold SaveUploadFile.part at h
  simp only at h
  split at h
  · cases h
  · split at h
    · cases h
    · split at h
      · cases h
      · split at h
        · cases h
        · simp only [Option.some.injEq] at h
          rw [← h]
          exact substr_in_text _ _ _

/-- An extraction that succeeds has found a CRLF in the body. -/
theorem extract_needs_CRLF (r : Request) (field : Str) (exts : List Str) (x : Str × Str)
    (h : SaveUploadFile.extract r field exts = some x) : CRLF <:+: r.body_ := by
  obtain ⟨part, hpart, hfile⟩ := extract_some r field exts x h
  obtain ⟨_, _, _, filenameEnd, dataPos0, _, _, _, _, _, _, _, hdata⟩ :=
    file_some part field exts x hfile
  have h1 : "\r\n\r\n".toList <:+: part := FirstAt_occurs _ _ _ _ (find_some _ _ _ _ hdata)
  have h2 : CRLF <:+: "\r\n\r\n".toList := by decide
  exact (h2.trans h1).trans (part_in_body r part hpart)

theorem extract_none_of_no_CRLF (r : Request) (field : Str) (exts : List Str)
    (h : ¬ CRLF <:+: r.body_) : SaveUploadFile.extract r field exts = none := by
  cases hx : SaveUploadFile.extract r field exts with
  | none => rfl
  | some x => exact absurd (extract_needs_CRLF r field exts x hx) h

theorem extract_none_of_urlencoded (r : Request) (field : Str) (exts : List Str)
    (h : dictFind r.header_ "Content-Type".toList
      = some "application/x-www-form-urlencoded".toList) :
    SaveUploadFile.extract r field exts = none := by
  have hb : find "application/x-www-form-urlencoded".toList "boundary=".toList 0 = none := by
    decide
  simp only [SaveUploadFile.extract, SaveUploadFile.part, h, hb]

/-- The upload branch of `ParsePost_` never reports success when the extraction fails. -/
theorem upload_not_success (env : Env) (r : Request) (field dir : Str) (exts : List Str)
    (tr : Trace) (h : SaveUploadFile.extract r field exts = none) :
    (ParsePost_.upload env r field dir exts tr).1.body_ ≠ jsonSuccess
    ∧ (ParsePost_.upload env r field dir exts tr).1.method_ = r.method_
    ∧ (ParsePost_.upload env r field dir exts tr).1.path_ = r.path_ := by
  have h1 : jsonNotLoggedIn ≠ jsonSuccess := by decide
  have h2 : jsonUploadFailed ≠ jsonSuccess := by decide
  have hs : SaveUploadFile env r field dir exts tr = (false, tr) := by
    simp only [SaveUploadFile, h]
  unfold ParsePost_.upload
  split_ifs
  · exact ⟨h1, rfl, rfl⟩
  · rw [hs]
    exact ⟨h2, rfl, rfl⟩

theorem form_extract_none (env : Env) (r r1 : Request) (tr tr1 : Trace)
    (h : ParsePost_.form env r tr = .ok (r1, tr1)) (hb : ¬ CRLF <:+: r.body_)
    (field : Str) (exts : List Str) : SaveUploadFile.extract r1 field exts = none := by
  unfold ParsePost_.form at h
  simp only at h
  split_ifs at h with hm hct
  · rcases ParseFromUrlencoded__cases
        { r with header_ := dictTouch r.header_ "Content-Type".toList } with hf | ⟨body, post, hok⟩
    · rw [hf] at h; cases h
    · rw [hok] at h
      simp only at h
      split at h
      · simp only [Res.ok.injEq, Prod.mk.injEq] at h
        apply extract_none_of_urlencoded
        rw [← h.1]; exact hct
      · split_ifs at h
        · split at h
          · simp only [Res.ok.injEq, Prod.mk.injEq] at h
            apply extract_none_of_urlencoded
            rw [← h.1]; exact hct
          · simp only [Res.ok.injEq, Prod.mk.injEq] at h
            apply extract_none_of_urlencoded
            rw [← h.1]; exact hct
        · simp only [Res.ok.injEq, Prod.mk.injEq] at h
          apply extract_none_of_urlencoded
          rw [← h.1]; exact hct
  · simp only [Res.ok.injEq, Prod.mk.injEq] at h
    apply extract_none_of_no_CRLF
    rw [← h.1]; exact hb
  · simp only [Res.ok.injEq, Prod.mk.injEq] at h
    apply extract_none_of_no_CRLF
    rw [← h.1]; exact hb

theorem ParsePost__not_success (env : Env) (r r1 : Request) (tr tr1 : Trace)
    (h : ParsePost_ env r tr = .ok (r1, tr1)) (hb : ¬ CRLF <:+: r.body_) :
    ¬ uploadSucceeded r1 := by
  unfold ParsePost_ at h
  cases hform : ParsePost_.form env r tr with
  | fault e => rw [hform] at h; cases h
  | ok a =>
    obtain ⟨r2, tr2⟩ := a
    have hx := form_extract_none env r r2 tr tr2 hform hb
    rw [hform] at h
    simp only at h
    split_ifs at h with himg hvid
    · simp only [Res.ok.injEq] at h
      have hu := upload_not_success env r2 "image".toList "resources/images/".toList
        [".jpg".toList, ".jpeg".toList] tr2 (hx _ _)
      rw [h] at hu
      exact fun hs => hu.1 hs.2.2
    · simp only [Res.ok.injEq] at h
      have hu := upload_not_success env r2 "video".toList "resources/video/".toList
        [".mp4".toList] tr2 (hx _ _)
      rw [h] at hu
      exact fun hs => hu.1 hs.2.2
    · simp only [Res.ok.injEq, Prod.mk.injEq] at h
      rw [← h.1]
      rintro ⟨hm, hp | hp, _⟩
      · exact himg ⟨hp, hm⟩
      · exact hvid ⟨hp, hm⟩

theorem ParseBody__not_success (env : Env) (r r1 : Request) (line : Str) (tr tr1 : Trace)
    (h : ParseBody_ env r line tr = .ok (r1, tr1)) (hb : ¬ CRLF <:+: line) :
    ¬ uploadSucceeded r1 := by
  unfold ParseBody_ at h
  cases hp : ParsePost_ env { r with body_ := line } tr with
  | fault e => rw [hp] at h; cases h
  | ok a =>
    obtain ⟨r2, tr2⟩ := a
    have hn := ParsePost__not_success env _ r2 tr tr2 hp hb
    rw [hp] at h
    simp only [Res.ok.injEq, Prod.mk.injEq] at h
    rw [← h.1]
    exact hn

theorem ParseBody__fault (env : Env) (r : Request) (line : Str) (tr : Trace) (f : Fault)
    (h : ParseBody_ env r line tr = .fault f) : f = .outOfRange := by
  unfold ParseBody_ at h
  cases hp : ParsePost_ env { r with body_ := line } tr with
  | ok a => rw [hp] at h; cases h
  | fault e =>
    rw [hp] at h
    simp only [Res.fault.injEq] at h
    rw [← h]
    exact ParsePost__fault _ _ _ _ hp

theorem parse_loop_of_finish (env : Env) (fuel : Nat) (r : Request) (buff : Str) (tr : Trace)
    (h : r.state_ = .FINISH) : parse.loop env fuel r buff tr = .ok ⟨true, r, buff, tr⟩ := by
  cases fuel <;> simp [parse.loop, h]

theorem ParseRequestLine__body (stack : Nat) (r r1 : Request) (line : Str) (b : Bool)
    (h : ParseRequestLine_ stack r line = .ok (b, r1)) : r1.body_ = r.body_ := by
  rcases ParseRequestLine__ok stack r r1 line b h with ⟨_, caps, _, h1⟩ | ⟨_, h1, _⟩
  · rw [h1]
  · rw [h1]

theorem ParseHeader__body (stack : Nat) (r r1 : Request) (line : Str)
    (h : ParseHeader_ stack r line = .ok r1) : r1.body_ = r.body_ := by
  rcases ParseHeader__ok stack r r1 line h with ⟨caps, h1⟩ | h1
  · rw [h1]
  · rw [h1]

theorem ParsePath__body (r : Request) : (ParsePath_ r).body_ = r.body_ := by
  rw [ParsePath__rest]

/-- One turn of the `switch`: the body is kept, or the state was `BODY` and the turn
finished the request on the line. -/
theorem parse_switch_body (env : Env) (r r1 : Request) (line : Str) (readable : Nat)
    (tr tr1 : Trace) (b : Bool) (h : parse.switch env r line readable tr = .ok (b, r1, tr1)) :
    r1.body_ = r.body_
    ∨ (r1.state_ = .FINISH ∧ ∃ tr2, ParseBody_ env r line tr = .ok (r1, tr2)) := by
  unfold parse.switch at h
  cases hst : r.state_ with
  | REQUEST_LINE =>
    rw [hst] at h
    simp only at h
    left
    cases hprl : ParseRequestLine_ env.regexLimit r line with
    | fault e => rw [hprl] at h; cases h
    | ok a =>
      obtain ⟨b2, r2⟩ := a
      have hb := ParseRequestLine__body env.regexLimit r r2 line b2 hprl
      rw [hprl] at h
      cases b2 with
      | false =>
        simp only [Res.ok.injEq, Prod.mk.injEq] at h
        rw [← h.2.1]; exact hb
      | true =>
        simp only [Res.ok.injEq, Prod.mk.injEq] at h
        rw [← h.2.1, ParsePath__body]; exact hb
  | HEADERS =>
    rw [hst] at h
    simp only at h
    left
    cases hph : ParseHeader_ env.regexLimit r line with
    | fault e => rw [hph] at h; cases h
    | ok r2 =>
      have hb := ParseHeader__body env.regexLimit r r2 line hph
      rw [hph] at h
      simp only [Res.ok.injEq, Prod.mk.injEq] at h
      rw [← h.2.1]
      split_ifs
      · exact hb
      · exact hb
  | BODY =>
    rw [hst] at h
    simp only at h
    right
    cases hb : ParseBody_ env r line tr with
    | fault e => rw [hb] at h; cases h
    | ok a =>
      obtain ⟨r2, tr2⟩ := a
      rw [hb] at h
      simp only [Res.ok.injEq, Prod.mk.injEq] at h
      rw [← h.2.1]
      exact ⟨ParseBody__state env r r2 line tr tr2 hb, tr2, rfl⟩
  | FINISH =>
    rw [hst] at h
    simp only [Res.ok.injEq, Prod.mk.injEq] at h
    left
    rw [← h.2.1]

theorem parse_loop_upload (env : Env) :
    ∀ (fuel : Nat) (r : Request) (buff : Str) (tr : Trace) (out : Parsed),
      parse.loop env fuel r buff tr = .ok out →
      out.req.body_ = r.body_ ∨ ¬ uploadSucceeded out.req := by
  intro fuel
  induction fuel with
  | zero =>
    intro r buff tr out h
    rw [parse.loop] at h
    split_ifs at h
    simp only [Res.ok.injEq] at h
    rw [← h]
    exact Or.inl rfl
  | succ fuel ih =>
    intro r buff tr out h
    rw [parse.loop] at h
    split_ifs at h with hc
    · simp only at h
      cases hsw : parse.switch env r (List.take (search buff) buff) buff.length tr with
      | fault e => rw [hsw] at h; cases h
      | ok a =>
        obtain ⟨b, r1, tr1⟩ := a
        have hbody := parse_switch_body env r r1 _ _ tr tr1 b hsw
        have hgood : r1.body_ = r.body_ ∨ (r1.state_ = .FINISH ∧ ¬ uploadSucceeded r1) := by
          rcases hbody with h1 | ⟨h1, tr2, h2⟩
          · exact Or.inl h1
          · exact Or.inr ⟨h1, ParseBody__not_success env r r1 _ tr tr2 h2
              (take_search_no_CRLF buff)⟩
        rw [hsw] at h
        cases b with
        | false =>
          simp only [Res.ok.injEq] at h
          rw [← h]
          rcases hgood with h1 | ⟨_, h1⟩
          · exact Or.inl h1
          · exact Or.inr h1
        | true =>
          simp only at h
          split_ifs at h with he
          · simp only [Res.ok.injEq] at h
            rw [← h]
            rcases hgood with h1 | ⟨_, h1⟩
            · exact Or.inl h1
            · exact Or.inr h1
          · rcases hgood with h1 | ⟨hfin, h1⟩
            · rcases ih r1 _ tr1 out h with h2 | h2
              · exact Or.inl (h2.trans h1)
              · exact Or.inr h2
            · rw [parse_loop_of_finish env fuel r1 _ tr1 hfin] at h
              simp only [Res.ok.injEq] at h
              rw [← h]
              exact Or.inr h1
    · simp only [Res.ok.injEq] at h
      rw [← h]
      exact Or.inl rfl

/-- C20. The line that `parse` takes from the buffer, which is the body it captures in
state `BODY`, holds no CRLF; on a body without CRLF the multipart extraction fails for
every header map, field name and extension list; so processing a body line never leaves
a `POST` to `/upload_image` or `/upload_video` with the body `{"success":true}`, and a
call of `parse` ends with such a request only if the request held that body before the
call. The call returns unless the form decoder reads past the end of the body or the
matcher overflows the stack on a long line. -/
theorem parse__upload_never_succeeds (env : Env) (r : Request) (buff : Str) (tr : Trace) :
    ¬ CRLF <:+: buff.take (search buff)
    ∧ (∀ (r' : Request) (field : Str) (exts : List Str), ¬ CRLF <:+: r'.body_ →
        SaveUploadFile.extract r' field exts = none)
    ∧ (∀ line : Str, ¬ CRLF <:+: line →
        match ParseBody_ env r line tr with
        | .ok (r1, _) => ¬ uploadSucceeded r1
        | .fault f => f = .outOfRange)
    ∧ (match parse env r buff tr with
        | .ok out => uploadSucceeded out.req → r.body_ = jsonSuccess
        | .fault f => f = .outOfRange ∨ f = .stackOverflow) := by
  refine ⟨take_search_no_CRLF buff, fun r' field exts h => extract_none_of_no_CRLF r' field exts h,
    ?_, ?_⟩
  · intro line hline
    cases hb : ParseBody_ env r line tr with
    | fault f => exact ParseBody__fault env r line tr f hb
    | ok a =>
      obtain ⟨r1, tr1⟩ := a
      exact ParseBody__not_success env r r1 line tr tr1 hb hline
  · cases hp : parse env r buff tr with
    | fault f => exact parse_fault env r buff tr f hp
    | ok out =>
      simp only
      intro hs
      have hcases : out.req.body_ = r.body_ ∨ ¬ uploadSucceeded out.req := by
        unfold parse at hp
        split_ifs at hp
        · simp only [Res.ok.injEq] at hp
          rw [← hp]
          exact Or.inl rfl
        · exact parse_loop_upload env _ r buff tr out hp
      rcases hcases with h1 | h1
      · rw [← h1]; exact hs.2.2
      · exact absurd hs h1

set_option maxRecDepth 100000 in
/-- C20, at a logged-in `POST` to `/upload_image` whose multipart body arrives in one
buffer: the body captured is the first line after the headers, `------X`, and the
upload is answered with the failure body. -/
theorem parse__upload_never_succeeds_witness :
    SaveUploadFile.extract { Init with body_ := "------X".toList } "image".toList
        [".jpg".toList, ".jpeg".toList] = none
    ∧ (match ParseBody_ env0
          { Init with method_ := "POST".toList, path_ := "/upload_image".toList, state_ := .BODY }
          "------X".toList tr0 with
        | .ok (r1, _) => ¬ uploadSucceeded r1
        | .fault f => f = .outOfRange)
    ∧ parse env0 Init
        (("POST /upload_image HTTP/1.1\r\nCookie: username=a\r\n"
          ++ "Content-Type: multipart/form-data; boundary=----X\r\n\r\n"
          ++ "------X\r\nContent-Disposition: form-data; name=\"image\"; filename=\"a.jpg\"\r\n"
          ++ "\r\nDATA\r\n------X--").toList) tr0
      = .ok ⟨true,
          { Init with
            method_ := "POST".toList,
            path_ := "/upload_image".toList,
            version_ := "1.1".toList,
            body_ := jsonUploadFailed,
            state_ := .FINISH,
            header_ := [("Cookie".toList, "username=a".toList),
                        ("Content-Type".toList, "multipart/form-data; boundary=----X".toList)] },
          ("Content-Disposition: form-data; name=\"image\"; filename=\"a.jpg\"\r\n"
            ++ "\r\nDATA\r\n------X--").toList, tr0⟩ :=
  ⟨(parse__upload_never_succeeds env0 Init [] tr0).2.1 { Init with body_ := "------X".toList }
      "image".toList [".jpg".toList, ".jpeg".toList] (by decide),
    (parse__upload_never_succeeds env0
      { Init with method_ := "POST".toList, path_ := "/upload_image".toList, state_ := .BODY }
      [] tr0).2.2.1 "------X".toList (by decide),
    by decide⟩

end HttpRequest
